import Mathlib

/-!
# Verification of the Lohono fuzzy property-search core

Shallow embedding of `src/services/property_search.py` (class
`PropertySearchService`).  The loaded pandas table is embedded as a list of
rows; Python strings are Lean `String`s; `datetime` date objects are embedded
as their proleptic-Gregorian ordinal day numbers (`Nat`), which is exactly the
representation `datetime` itself uses for comparison and `timedelta(days=1)`
arithmetic.  Similarity scores, which rapidfuzz computes as floats, are
embedded as exact rationals (`ℚ`); every score appearing in the program is a
ratio of small integers, so the threshold comparisons (≥ 85, ≥ 90, ≥ 95,
≥ 0.8) agree with the float computation except on astronomically unlikely
rounding boundaries, which this development does not model.
-/

namespace PropertySearch

/-! ## Basic string utilities -/

/-- Does the char list start with the given needle (needle first argument)? -/
def listStarts : List Char → List Char → Bool
  | [], _ => true
  | _ :: _, [] => false
  | a :: as, b :: bs => a == b && listStarts as bs

/-- Does the char list contain the needle as a contiguous segment? -/
def listHas (needle : List Char) : List Char → Bool
  | [] => needle.isEmpty
  | c :: cs => listStarts needle (c :: cs) || listHas needle cs

/-- Python `needle in hay` on strings (contiguous substring containment). -/
def strContainsSub (hay needle : String) : Bool :=
  listHas needle.data hay.data

/-- Python `s.lower()` (ASCII case folding, which covers the data). -/
def pyLower (s : String) : String :=
  String.mk (s.data.map Char.toLower)

/-- Python `s.strip()`. -/
def pyStrip (s : String) : String :=
  String.mk (((s.data.dropWhile Char.isWhitespace).reverse.dropWhile
    Char.isWhitespace).reverse)

/-- Python `s.replace('-', ' ')` (single-character pattern). -/
def replaceDash (s : String) : String :=
  String.mk (s.data.map (fun c => if c == '-' then ' ' else c))

/-- Python `s.split(sep)` for a single-character separator: keeps empty
pieces. -/
def splitOnCharAux (sep : Char) : List Char → List Char → List String
  | acc, [] => [String.mk acc.reverse]
  | acc, c :: cs =>
    if c == sep then String.mk acc.reverse :: splitOnCharAux sep [] cs
    else splitOnCharAux sep (c :: acc) cs

/-- Decimal value of a digit run (callers have checked `isDigits`). -/
def digitsToNat (l : List Char) : Nat :=
  l.foldl (fun n c => n * 10 + (c.toNat - 48)) 0

/-- Split a char list on a separator predicate, discarding empty pieces:
Python `str.split()` semantics (`acc` holds the current word reversed). -/
def splitWordsAux (sep : Char → Bool) : List Char → List Char → List String
  | acc, [] => if acc.isEmpty then [] else [String.mk acc.reverse]
  | acc, c :: cs =>
    if sep c then
      if acc.isEmpty then splitWordsAux sep [] cs
      else String.mk acc.reverse :: splitWordsAux sep [] cs
    else splitWordsAux sep (c :: acc) cs

/-- Python `s.split()` (split on whitespace runs, no empty words). -/
def pySplit (s : String) : List String :=
  splitWordsAux Char.isWhitespace [] s.data

/-- Lexicographic (code-point) comparison of strings, Python `<=` on `str`. -/
def lexLe : List Char → List Char → Bool
  | [], _ => true
  | _ :: _, [] => false
  | a :: as, b :: bs => if a == b then lexLe as bs else decide (a < b)

/-- Insert into a lexicographically sorted list of strings. -/
def insertStr (x : String) : List String → List String
  | [] => [x]
  | y :: ys => if lexLe y.data x.data then y :: insertStr x ys else x :: y :: ys

/-- Python `sorted` on a list of strings (stable, lexicographic). -/
def sortStrs (l : List String) : List String :=
  l.foldl (fun acc x => insertStr x acc) []

/-- Python `" ".join(l)`. -/
def joinSpace : List String → String
  | [] => ""
  | [x] => x
  | x :: y :: rest => x ++ " " ++ joinSpace (y :: rest)

/-! ## Similarity scores (rapidfuzz)

Scores are exact nonnegative rationals.  To keep every definition kernel-
executable they are carried as unreduced numerator/denominator pairs of
naturals (`Score`), compared by cross-multiplication; `Score.val` maps a
score to the rational it denotes, used in theorem statements. -/

/-- An unreduced nonnegative rational: `num / den` with `den` positive for
every score the program constructs. -/
structure Score where
  num : Nat
  den : Nat
deriving DecidableEq

/-- Value denoted by a score. -/
def Score.val (s : Score) : ℚ :=
  (s.num : ℚ) / (s.den : ℚ)

/-- Comparison of denoted values (cross-multiplication). -/
def Score.le (a b : Score) : Bool :=
  a.num * b.den ≤ b.num * a.den

/-- Strict comparison of denoted values. -/
def Score.slt (a b : Score) : Bool :=
  a.num * b.den < b.num * a.den

/-- Python `max(a, b)` (returns the second argument only when strictly
greater, like the comparisons the source performs). -/
def Score.pmax (a b : Score) : Score :=
  if Score.slt a b then b else a

/-- Multiplication by a fixed weight `wn / wd`. -/
def Score.wmul (s : Score) (wn wd : Nat) : Score :=
  { num := s.num * wn, den := s.den * wd }

/-- The integer score `n`. -/
def Score.ofNat (n : Nat) : Score :=
  { num := n, den := 1 }

/-- One step of the standard longest-common-subsequence DP.  `prev` is the
row for the processed prefix of the first string against all prefixes of
`b`; `nj` is the already-computed entry of the new row one position left. -/
def lcsNextAux (c : Char) : List Char → List Nat → Nat → List Nat
  | [], _, _ => []
  | bj :: bs, prev, nj =>
    match prev with
    | [] => []
    | pj :: prest =>
      let nj1 := if c == bj then pj + 1 else max (prest.headD 0) nj
      nj1 :: lcsNextAux c bs prest nj1

/-- Length of the longest common subsequence of two char lists. -/
def lcsLen (a b : List Char) : Nat :=
  (a.foldl (fun prev c => 0 :: lcsNextAux c b prev 0)
    (List.replicate (b.length + 1) 0)).getLastD 0

/-- rapidfuzz `fuzz.ratio`: normalized InDel similarity,
`100 * (1 - dist/(la+lb)) = 200 * lcs / (la + lb)`, and 100 for two empty
strings. -/
def fuzzRatioS (a b : String) : Score :=
  if a.length + b.length = 0 then Score.ofNat 100
  else { num := 200 * lcsLen a.data b.data, den := a.length + b.length }

/-- The rational value of `fuzz.ratio`, for theorem statements. -/
def fuzzRatioQ (a b : String) : ℚ :=
  (fuzzRatioS a b).val

/-- All contiguous windows of length `n` of a char list (used for the
partial-ratio alignment search). -/
def windowsAux (n : Nat) : List Char → List (List Char)
  | [] => if n = 0 then [[]] else []
  | c :: cs =>
    if n ≤ (c :: cs).length then (c :: cs).take n :: windowsAux n cs
    else []

/-- rapidfuzz `fuzz.partial_ratio`: best `fuzz.ratio` of the shorter string
against the windows of its length in the longer string. -/
def partialRatioS (a b : String) : Score :=
  let p := if a.length ≤ b.length then (a, b) else (b, a)
  ((windowsAux p.1.length p.2.data).map
    (fun w => fuzzRatioS p.1 (String.mk w))).foldl Score.pmax (Score.ofNat 0)

/-- rapidfuzz `fuzz.token_sort_ratio`: ratio of the space-joined sorted word
lists. -/
def tokenSortRatioS (a b : String) : Score :=
  fuzzRatioS (joinSpace (sortStrs (pySplit a))) (joinSpace (sortStrs (pySplit b)))

/-- rapidfuzz `fuzz.token_set_ratio`: compares sorted intersection and
differences of the two token sets; 100 when one token set contains the
other (nonempty intersection and one empty difference). -/
def tokenSetRatioS (a b : String) : Score :=
  let ta := (pySplit a).eraseDups
  let tb := (pySplit b).eraseDups
  let inter := sortStrs (ta.filter (fun w => tb.contains w))
  let diffAB := sortStrs (ta.filter (fun w => !tb.contains w))
  let diffBA := sortStrs (tb.filter (fun w => !ta.contains w))
  if !inter.isEmpty && (diffAB.isEmpty || diffBA.isEmpty) then Score.ofNat 100
  else
    let s0 := joinSpace inter
    let s1 := joinSpace (inter ++ diffAB)
    let s2 := joinSpace (inter ++ diffBA)
    Score.pmax (Score.pmax (fuzzRatioS s0 s1) (fuzzRatioS s0 s2)) (fuzzRatioS s1 s2)

/-! ## Dates

`datetime.strptime(s, "%Y-%m-%d")` accepts exactly four year digits, one or
two month digits (value 1–12) and one or two day digits valid for the month,
and nothing else; the resulting `datetime` compares and steps by days exactly
like its proleptic-Gregorian ordinal. -/

/-- Gregorian leap year. -/
def isLeap (y : Nat) : Bool :=
  (y % 4 == 0 && y % 100 != 0) || y % 400 == 0

/-- Number of days in a month of a given year. -/
def daysInMonth (y m : Nat) : Nat :=
  if m = 2 then (if isLeap y then 29 else 28)
  else if m = 4 ∨ m = 6 ∨ m = 9 ∨ m = 11 then 30
  else 31

/-- Proleptic-Gregorian ordinal of a calendar date (days-from-civil; any
fixed offset is irrelevant since only differences and comparisons are
used). -/
def toSerial (y m d : Nat) : Nat :=
  let yAdj := if m ≤ 2 then y - 1 else y
  let era := yAdj / 400
  let yoe := yAdj % 400
  let mp := (m + 9) % 12
  let doy := (153 * mp + 2) / 5 + d - 1
  let doe := yoe * 365 + yoe / 4 - yoe / 100 + doy
  era * 146097 + doe

/-- Inverse of `toSerial`: (year, month, day) of an ordinal. -/
def civilFromSerial (z : Nat) : Nat × Nat × Nat :=
  let era := z / 146097
  let doe := z % 146097
  let yoe := (doe - doe / 1460 + doe / 36524 - doe / 146096) / 365
  let yAdj := yoe + era * 400
  let doy := doe - (365 * yoe + yoe / 4 - yoe / 100)
  let mp := (5 * doy + 2) / 153
  let d := doy - (153 * mp + 2) / 5 + 1
  let m := if mp < 10 then mp + 3 else mp - 9
  (if m ≤ 2 then yAdj + 1 else yAdj, m, d)

/-- Is the string a nonempty run of ASCII digits? -/
def isDigits (s : String) : Bool :=
  !s.data.isEmpty && s.data.all Char.isDigit

/-- `datetime.strptime(s, "%Y-%m-%d")`, embedded as `Option` ordinal:
`none` models the `ValueError` raised on a malformed or invalid date
(`%Y` requires exactly four digits, `%m` and `%d` one or two, and the
resulting calendar date must exist). -/
def parseDate (s : String) : Option Nat :=
  match splitOnCharAux '-' [] s.data with
  | [ys, ms, ds] =>
    if isDigits ys && ys.length == 4 && isDigits ms && ms.length ≤ 2
        && isDigits ds && ds.length ≤ 2 then
      let y := digitsToNat ys.data
      let m := digitsToNat ms.data
      let d := digitsToNat ds.data
      if 1 ≤ y ∧ 1 ≤ m ∧ m ≤ 12 ∧ 1 ≤ d ∧ d ≤ daysInMonth y m then
        some (toSerial y m d)
      else none
    else none
  | _ => none

/-- `_validate_date_range`: both dates parse and check-in is strictly
before check-out; a parse failure (`ValueError`) yields `False`. -/
def validate_date_range (checkIn checkOut : String) : Bool :=
  match parseDate checkIn, parseDate checkOut with
  | some a, some b => decide (a < b)
  | _, _ => false

/-- `_get_date_range`: every date from check-in up to but excluding
check-out (the while loop stepping `timedelta(days=1)`); the enclosing
caller catches the parse error of an invalid input and produces `[]`. -/
def get_date_range (checkIn checkOut : String) : List Nat :=
  match parseDate checkIn, parseDate checkOut with
  | some a, some b => (List.range (b - a)).map (fun i => a + i)
  | _, _ => []

/-! ## The loaded table -/

/-- One row of the loaded CSV: identifier, normalized date, status, and the
`listing price` cell (`none` models a missing or non-numeric cell, whose
`int(...)` conversion raises and is caught, contributing 0). -/
structure Row where
  identifier : String
  date : Nat
  status : String
  listing_price : Option Int
deriving DecidableEq

/-- The pandas row selection
`data[(data['date'] == date) & (data['Identifier'] == prop)].iloc[0]`:
first row matching both, if any. -/
def lookupRecord (rows : List Row) (prop : String) (d : Nat) : Option Row :=
  rows.find? (fun r => r.date == d && r.identifier == prop)

/-- The per-candidate date loop of `_get_property_availability_range`:
returns `(is_available, total_price)`.  A missing record or a status other
than `"available"` fails the candidate and stops the loop; prices of the
dates seen before the failure remain accumulated, exactly as in the
source. -/
def availTotal (rows : List Row) (prop : String) : List Nat → Bool × Int
  | [] => (true, 0)
  | d :: ds =>
    match lookupRecord rows prop d with
    | none => (false, 0)
    | some r =>
      if r.status == "available" then
        let rest := availTotal rows prop ds
        (rest.1, r.listing_price.getD 0 + rest.2)
      else (false, 0)

/-- The fixed internal not-available message. -/
def NOT_AVAILABLE_MSG : String :=
  "information not available. experience team will contact the caller."

/-- One entry of the list built by `_get_property_availability_range`. -/
structure PropData where
  identifier : String
  availability : String
  per_night_price : Option Int
  is_available : Bool
deriving DecidableEq

/-- Body of the per-candidate iteration of
`_get_property_availability_range`: availability over the whole range and
`int(total_price / len(date_range)) if date_range and total_price > 0 else
None` (for a positive total over a nonempty range, `int` of the true
quotient is the floor). -/
def propAvail (rows : List Row) (dateRange : List Nat) (prop : String) : PropData :=
  let at2 := availTotal rows prop dateRange
  { identifier := prop
    availability := if at2.1 then "available" else NOT_AVAILABLE_MSG
    per_night_price :=
      if dateRange.length ≠ 0 ∧ 0 < at2.2 then
        some (((at2.2.toNat / dateRange.length : ℕ) : ℤ))
      else none
    is_available := at2.1 }

/-- `_get_property_availability_range`. -/
def get_property_availability_range (rows : List Row) (props : List String)
    (checkIn checkOut : String) : List PropData :=
  let dr := get_date_range checkIn checkOut
  props.map (propAvail rows dr)

/-! ## The three-stage resolver (`_fuzzy_search_properties`) -/

/-- The fixed generic vocabulary. -/
def GENERIC_WORDS : List String :=
  ["villa", "house", "cottage", "estate", "manor", "palace", "resort"]

/-- `self.similarity_threshold` (90). -/
def similarity_threshold : Score := Score.ofNat 90

/-- `set(prop.lower().replace('-', ' ').split())`: the word set of an
identifier (a Python set, embedded as a first-occurrence deduplicated
list). -/
def propWords (prop : String) : List String :=
  (pySplit (replaceDash (pyLower prop))).eraseDups

/-- Stage 2 per-identifier test of `_fuzzy_search_properties`.  `sw` is the
deduplicated search word list.  With specific (non-generic) search words
present: full subset containment, or an 80% word-intersection ratio
together with an exact or ≥ 85 fuzzy specific-word match; with only
generic search words: subset containment alone. -/
def stage2Match (sw : List String) (prop : String) : Bool :=
  let pw := propWords prop
  let interLen := (sw.filter (fun w => pw.contains w)).length
  let searchSpecific := sw.filter (fun w => !GENERIC_WORDS.contains w)
  let propSpecific := pw.filter (fun w => !GENERIC_WORDS.contains w)
  if !searchSpecific.isEmpty then
    let exactM := searchSpecific.filter (fun w => propSpecific.contains w)
    let fuzzyM := searchSpecific.any (fun w =>
      propSpecific.any (fun v => Score.le (Score.ofNat 85) (fuzzRatioS w v)))
    let specificM := !exactM.isEmpty || fuzzyM
    sw.all (fun w => pw.contains w)
      || (Score.le { num := 4, den := 5 } { num := interLen, den := sw.length }
          && specificM)
  else sw.all (fun w => pw.contains w)

/-- Stable insertion into a list sorted descending by the `Score` key
(equal keys keep insertion order, matching Python's stable sorting). -/
def insertByScoreDesc {α : Type} (key : α → Score) (x : α) : List α → List α
  | [] => [x]
  | y :: ys =>
    if Score.le (key x) (key y) then y :: insertByScoreDesc key x ys
    else x :: y :: ys

/-- Stable sort, descending by the `Score` key. -/
def sortByScoreDesc {α : Type} (key : α → Score) (l : List α) : List α :=
  l.foldl (fun acc x => insertByScoreDesc key x acc) []

/-- `process.extract(query, choices, scorer=…, limit=20)`: every choice is
scored, ranked descending, and the top 20 kept, as (index, score) pairs. -/
def extractTop (scorer : String → String → Score) (q : String)
    (choices : List String) : List (Nat × Score) :=
  (sortByScoreDesc (fun e => e.2)
    ((choices.enum).map (fun e => (e.1, scorer q e.2)))).take 20

/-- The concatenated weighted shortlists of the three metrics, in the order
the source folds them: partial ratio × 1.0, token-sort ratio × 1.2,
token-set ratio × 1.1, each restricted to its own top-20 extract. -/
def weightedEntries (tl : String) (props : List String) : List (Nat × Score) :=
  let low := props.map pyLower
  (extractTop partialRatioS tl low).map (fun e => (e.1, e.2.wmul 1 1))
    ++ (extractTop tokenSortRatioS tl low).map (fun e => (e.1, e.2.wmul 6 5))
    ++ (extractTop tokenSetRatioS tl low).map (fun e => (e.1, e.2.wmul 11 10))

/-- One step of the `all_matches` dict-building loop: keep the entry, or
overwrite it in place when the new weighted score is strictly greater, or
append a fresh key at the end (Python dict insertion order). -/
def dictUpdateMax (d : List (String × Score)) (k : String) (v : Score) :
    List (String × Score) :=
  if d.any (fun e => e.1 == k) then
    d.map (fun e => if e.1 == k && Score.slt e.2 v then (k, v) else e)
  else d ++ [(k, v)]

/-- Dict lookup on the association list. -/
def dictLookup (d : List (String × Score)) (k : String) : Option Score :=
  (d.find? (fun e => e.1 == k)).map (fun e => e.2)

/-- The `all_matches` dict: fold of the weighted shortlist entries,
resolving each index to its original (non-lowercased) identifier. -/
def allMatches (tl : String) (props : List String) : List (String × Score) :=
  (weightedEntries tl props).foldl
    (fun d e => dictUpdateMax d (props.getD e.1 "") e.2) []

/-- The Stage 3 survivor test applied to each (identifier, weighted score)
pair of the sorted dict: weighted score at least the similarity threshold,
then an exact or ≥ 85 fuzzy specific-word match when specific search words
exist, else weighted score ≥ 95. -/
def stage3Keep (sw : List String) (prop : String) (s : Score) : Bool :=
  Score.le similarity_threshold s
    && (let pw := propWords prop
        let searchSpecific := sw.filter (fun w => !GENERIC_WORDS.contains w)
        let propSpecific := pw.filter (fun w => !GENERIC_WORDS.contains w)
        if !searchSpecific.isEmpty then
          !(searchSpecific.filter (fun w => propSpecific.contains w)).isEmpty
            || searchSpecific.any (fun w =>
                propSpecific.any (fun v =>
                  Score.le (Score.ofNat 85) (fuzzRatioS w v)))
        else Score.le (Score.ofNat 95) s)

/-- Stage 3 of `_fuzzy_search_properties`: sort the combined dict by
descending weighted score and keep the survivors. -/
def stage3 (tl : String) (sw : List String) (props : List String) :
    List String :=
  ((sortByScoreDesc (fun e => e.2) (allMatches tl props)).filter
    (fun e => stage3Keep sw e.1 e.2)).map (fun e => e.1)

/-- `_fuzzy_search_properties`: substring stage, then word-set stage, then
scored fuzzy fallback; the first stage with any result wins. -/
def fuzzy_search_properties (searchTerm : String) (allProperties : List String) :
    List String :=
  let tl := pyStrip (pyLower searchTerm)
  let sw := (pySplit tl).eraseDups
  let directMatches := allProperties.filter (fun p => strContainsSub (pyLower p) tl)
  if !directMatches.isEmpty then directMatches
  else
    let wordMatches := allProperties.filter (stage2Match sw)
    if !wordMatches.isEmpty then wordMatches
    else stage3 tl sw allProperties

/-! ## Response assembly (`_format_search_response` and friends) -/

/-- One entry of the `properties` list of a response. -/
structure PropEntry where
  name : String
  availability : String
  per_night_price : Option Int
deriving DecidableEq

/-- The response dict of `search_properties`.  Error responses carry an
extra `message` key, absent from the success shape. -/
structure SearchResult where
  found : Bool
  search_term : String
  check_in_date : String
  check_out_date : String
  total_found : Nat
  available_count : Nat
  properties : List PropEntry
  price_range : Option (Int × Int)
  summary : String
  message : Option String
deriving DecidableEq

/-- Thousands-separated decimal digits: the reversed digit list is
regrouped in threes (`k` counts digits already placed in the current
group). -/
def commaAux : List Char → Nat → List Char
  | [], _ => []
  | c :: cs, k =>
    if k == 2 && !cs.isEmpty then c :: ',' :: commaAux cs 0
    else c :: commaAux cs (k + 1)

/-- Python `f"{n:,}"` for a natural number. -/
def commaFmtNat (n : Nat) : String :=
  String.mk ((commaAux (toString n).data.reverse 0).reverse)

/-- Python `f"{i:,}"` for an integer. -/
def commaFmtInt (i : Int) : String :=
  if i < 0 then "-" ++ commaFmtNat i.natAbs else commaFmtNat i.natAbs

/-- `strftime("%B")`. -/
def monthName : Nat → String
  | 1 => "January"
  | 2 => "February"
  | 3 => "March"
  | 4 => "April"
  | 5 => "May"
  | 6 => "June"
  | 7 => "July"
  | 8 => "August"
  | 9 => "September"
  | 10 => "October"
  | 11 => "November"
  | 12 => "December"
  | _ => ""

/-- `strftime("%d")` (zero-padded). -/
def pad2 (n : Nat) : String :=
  if n < 10 then "0" ++ toString n else toString n

/-- `datetime.strptime(s, "%Y-%m-%d").strftime("%B %d, %Y")`, with the
source's `except` fallback to the raw string when parsing fails. -/
def formatLongDate (s : String) : String :=
  match parseDate s with
  | some z =>
    let c := civilFromSerial z
    monthName c.2.1 ++ " " ++ pad2 c.2.2 ++ ", " ++ toString c.1
  | none => s

/-- `_generate_summary_range`. -/
def generate_summary_range (searchTerm checkIn checkOut : String)
    (totalFound availableCount : Nat) (priceRange : Option (Int × Int))
    (prices : List Int) : String :=
  let fci := formatLongDate checkIn
  let fco := formatLongDate checkOut
  if totalFound == 0 then
    "No properties found matching '" ++ searchTerm ++ "'."
  else if availableCount == 0 then
    "Found " ++ toString totalFound ++ " " ++ searchTerm
      ++ " properties, but none are available from " ++ fci ++ " to " ++ fco ++ "."
  else
    let priceText :=
      match priceRange with
      | some pr =>
        "Per-night prices range from ₹" ++ commaFmtInt pr.1
          ++ " to ₹" ++ commaFmtInt pr.2 ++ "."
      | none =>
        match prices with
        | p :: _ => "Per-night price is ₹" ++ commaFmtInt p ++ "."
        | [] => "Pricing information available."
    "Found " ++ toString totalFound ++ " " ++ searchTerm ++ " properties for "
      ++ fci ++ " to " ++ fco ++ ". " ++ priceText ++ " "
      ++ toString availableCount ++ " properties are currently available."

/-- The dict comprehension `{prop["Identifier"]: prop for prop in
property_data}`: on duplicate identifiers the last entry wins. -/
def propertyMapLookup (propertyData : List PropData) (p : String) :
    Option PropData :=
  propertyData.reverse.find? (fun q => q.identifier == p)

/-- The response-building loop of `_format_search_response`: returns the
`properties` list, `available_count`, and the collected `prices` of
available candidates that have one. -/
def buildEntries (pmap : String → Option PropData) :
    List String → List PropEntry × Nat × List Int
  | [] => ([], 0, [])
  | p :: ps =>
    let rest := buildEntries pmap ps
    match pmap p with
    | some pd =>
      if pd.is_available then
        ({ name := p, availability := pd.availability,
           per_night_price := pd.per_night_price } :: rest.1,
         rest.2.1 + 1,
         match pd.per_night_price with
         | some pr => pr :: rest.2.2
         | none => rest.2.2)
      else
        ({ name := p, availability := "Property data not available.",
           per_night_price := none } :: rest.1, rest.2.1, rest.2.2)
    | none =>
      ({ name := p, availability := "Property data not available.",
         per_night_price := none } :: rest.1, rest.2.1, rest.2.2)

/-- Python `min` over a nonempty integer list (0 on the unreachable empty
list). -/
def listMinI : List Int → Int
  | [] => 0
  | x :: xs => xs.foldl min x

/-- Python `max` over a nonempty integer list. -/
def listMaxI : List Int → Int
  | [] => 0
  | x :: xs => xs.foldl max x

/-- `_format_search_response`: always `found=True`; `price_range` only when
the available candidates carry more than one distinct per-night price. -/
def format_search_response (searchTerm checkIn checkOut : String)
    (matchedProperties : List String) (propertyData : List PropData) :
    SearchResult :=
  let built := buildEntries (propertyMapLookup propertyData) matchedProperties
  let prices := built.2.2
  let priceRange :=
    if !prices.isEmpty && prices.eraseDups.length > 1 then
      some (listMinI prices, listMaxI prices)
    else none
  { found := true
    search_term := searchTerm
    check_in_date := checkIn
    check_out_date := checkOut
    total_found := matchedProperties.length
    available_count := built.2.1
    properties := built.1
    price_range := priceRange
    summary := generate_summary_range searchTerm checkIn checkOut
      matchedProperties.length built.2.1 priceRange prices
    message := none }

/-- `_no_properties_found_response`. -/
def no_properties_found_response (searchTerm checkIn checkOut : String) :
    SearchResult :=
  let msg := "No properties found matching '" ++ searchTerm
    ++ "'. Try searching for 'Aurelia', 'Siena', or 'Monforte'."
  { found := false
    search_term := searchTerm
    check_in_date := checkIn
    check_out_date := checkOut
    total_found := 0
    available_count := 0
    properties := []
    price_range := none
    summary := msg
    message := some msg }

/-- `_invalid_date_range_response`. -/
def invalid_date_range_response (searchTerm checkIn checkOut : String) :
    SearchResult :=
  let msg := "Invalid date range: check-in date must be before check-out date."
  { found := false
    search_term := searchTerm
    check_in_date := checkIn
    check_out_date := checkOut
    total_found := 0
    available_count := 0
    properties := []
    price_range := none
    summary := msg
    message := some msg }

/-- `search_properties` over loaded rows: validate the range, enumerate the
distinct identifiers (`unique()` keeps first-occurrence order), resolve,
aggregate availability, format. -/
def search_properties (rows : List Row) (propertyName checkIn checkOut : String) :
    SearchResult :=
  if validate_date_range checkIn checkOut then
    let allPropertyNames := (rows.map (fun r => r.identifier)).eraseDups
    if allPropertyNames.isEmpty then
      no_properties_found_response propertyName checkIn checkOut
    else
      let fuzzyMatches := fuzzy_search_properties propertyName allPropertyNames
      if fuzzyMatches.isEmpty then
        no_properties_found_response propertyName checkIn checkOut
      else
        format_search_response propertyName checkIn checkOut fuzzyMatches
          (get_property_availability_range rows fuzzyMatches checkIn checkOut)
  else invalid_date_range_response propertyName checkIn checkOut

/-- The service object: `_data_cache` is `none` before a successful load.
The search path performs no assignment to the object, so the embedding of
its only method threads the state unchanged. -/
structure PropertySearchService where
  data_cache : Option (List Row)
deriving DecidableEq

/-- The `search_properties` method: raises (`Except.error`) only when the
data cache is not loaded; every business-logic condition produces a normal
result. -/
def PropertySearchService.search (svc : PropertySearchService)
    (propertyName checkIn checkOut : String) : Except String SearchResult :=
  match svc.data_cache with
  | none => Except.error "Data not loaded"
  | some rows => Except.ok (search_properties rows propertyName checkIn checkOut)

/-- The method as a state transition: result together with the state the
service object is left in. -/
def PropertySearchService.searchStep (svc : PropertySearchService)
    (propertyName checkIn checkOut : String) :
    Except String SearchResult × PropertySearchService :=
  (svc.search propertyName checkIn checkOut, svc)

/-! ## Specification-side predicates

These render the spec's wording as plain propositions, to be compared with
the source-derived definitions above. -/

/-- Spec wording: some search-specific word matches some property-specific
word exactly, or some pair of specific words has per-word similarity
ratio ≥ 85. -/
def specificWordMatch (searchSpecific propSpecific : List String) : Prop :=
  ∃ w ∈ searchSpecific, ∃ v ∈ propSpecific, w = v ∨ (85 : ℚ) ≤ fuzzRatioQ w v

/-- Spec wording of the Stage 2 match condition for one identifier. -/
def Stage2Spec (sw : List String) (p : String) : Prop :=
  (sw.filter (fun w => !GENERIC_WORDS.contains w) ≠ [] →
    ((∀ w ∈ sw, w ∈ propWords p) ∨
      ((4 : ℚ) / 5 ≤
          ((sw.filter (fun w => (propWords p).contains w)).length : ℚ) /
            (sw.length : ℚ) ∧
        specificWordMatch (sw.filter (fun w => !GENERIC_WORDS.contains w))
          ((propWords p).filter (fun w => !GENERIC_WORDS.contains w)))))
  ∧ (sw.filter (fun w => !GENERIC_WORDS.contains w) = [] →
      ∀ w ∈ sw, w ∈ propWords p)

/-- Spec wording of the Stage 3 specific/generic survivor filter, given the
identifier's best weighted score `q`. -/
def Stage3KeepSpec (sw : List String) (p : String) (q : ℚ) : Prop :=
  (sw.filter (fun w => !GENERIC_WORDS.contains w) ≠ [] →
    specificWordMatch (sw.filter (fun w => !GENERIC_WORDS.contains w))
      ((propWords p).filter (fun w => !GENERIC_WORDS.contains w)))
  ∧ (sw.filter (fun w => !GENERIC_WORDS.contains w) = [] → (95 : ℚ) ≤ q)

/-- The weighted scores an identifier received across the three metric
shortlists (spec wording: each metric contributes only inside its own
top-20 extract). -/
def receivedWeightedVals (tl : String) (props : List String) (p : String) :
    List ℚ :=
  (weightedEntries tl props).filterMap
    (fun e => if props.getD e.1 "" = p then some e.2.val else none)

/-- Maximum of a rational list, `none` when empty. -/
def listMaxOpt : List ℚ → Option ℚ
  | [] => none
  | x :: xs => some (xs.foldl max x)

/-- The association list has pairwise distinct keys. -/
def keysNodup (d : List (String × Score)) : Prop :=
  (d.map Prod.fst).Nodup

/-- Fold step combining an optional running maximum with one more score
(value-level maximum, kept as the representation `Score.pmax` keeps). -/
def optPmax (o : Option Score) (s : Score) : Option Score :=
  match o with
  | none => some s
  | some t => some (t.pmax s)

/-- Optional running maximum over a list of scores. -/
def optPmaxFold (o : Option Score) (l : List Score) : Option Score :=
  l.foldl optPmax o

/-- The scores an identifier received, at `Score` level. -/
def receivedScores (tl : String) (props : List String) (p : String) :
    List Score :=
  (weightedEntries tl props).filterMap
    (fun e => if props.getD e.1 "" = p then some e.2 else none)

/-! ## Concrete fixture stores used by the witnesses -/

/-- A small loaded table with mixed availability and prices. -/
def demoRows : List Row :=
  [ { identifier := "Aurelia Villa", date := toSerial 2025 10 1,
      status := "available", listing_price := some 50000 },
    { identifier := "Aurelia Villa", date := toSerial 2025 10 2,
      status := "available", listing_price := some 50000 },
    { identifier := "Siena House", date := toSerial 2025 10 1,
      status := "available", listing_price := some 40000 },
    { identifier := "Siena House", date := toSerial 2025 10 2,
      status := "booked", listing_price := some 40000 },
    { identifier := "Monforte Cottage", date := toSerial 2025 10 1,
      status := "available", listing_price := none } ]

/-- A table whose only candidate is booked on the queried night. -/
def bookedRows : List Row :=
  [ { identifier := "Aurelia Villa", date := toSerial 2025 10 1,
      status := "booked", listing_price := some 50000 } ]

/-- Two fully available candidates at two distinct nightly prices. -/
def twoPriceRows : List Row :=
  [ { identifier := "Villa Aurelia", date := toSerial 2025 10 1,
      status := "available", listing_price := some 40000 },
    { identifier := "Villa Siena", date := toSerial 2025 10 1,
      status := "available", listing_price := some 60000 } ]

/-! ## General lemmas -/

theorem strContainsSub_empty_needle (s : String) : strContainsSub s "" = true := by
  have h : ("" : String).data = [] := rfl
  unfold strContainsSub
  rw [h]
  induction s.data with
  | nil => rfl
  | cons c cs ih => simp [listHas, listStarts]

theorem search_properties_invalid (rows : List Row) (term ci co : String)
    (h : validate_date_range ci co = false) :
    search_properties rows term ci co = invalid_date_range_response term ci co := by
  simp [search_properties, h]

theorem search_properties_format (rows : List Row) (term ci co : String)
    (hv : validate_date_range ci co = true)
    (hn : (rows.map (fun r => r.identifier)).eraseDups ≠ [])
    (hm : fuzzy_search_properties term
        ((rows.map (fun r => r.identifier)).eraseDups) ≠ []) :
    search_properties rows term ci co =
      format_search_response term ci co
        (fuzzy_search_properties term ((rows.map (fun r => r.identifier)).eraseDups))
        (get_property_availability_range rows
          (fuzzy_search_properties term ((rows.map (fun r => r.identifier)).eraseDups))
          ci co) := by
  have h1 : ((rows.map (fun r => r.identifier)).eraseDups).isEmpty = false :=
    List.isEmpty_eq_false.mpr hn
  have h2 : (fuzzy_search_properties term
      ((rows.map (fun r => r.identifier)).eraseDups)).isEmpty = false :=
    List.isEmpty_eq_false.mpr hm
  simp [search_properties, hv, h1, h2]

/-! ## Claim theorems -/

/-- C9: the search path never mutates the loaded store: the service state
after a search is the state before it, and a second search over the
resulting state returns exactly what it would have returned over the
original state. -/
theorem search_leaves_store_unchanged (svc : PropertySearchService)
    (t1 a1 b1 t2 a2 b2 : String) :
    (svc.searchStep t1 a1 b1).2 = svc
      ∧ ((svc.searchStep t1 a1 b1).2.searchStep t2 a2 b2).1
          = (svc.searchStep t2 a2 b2).1 :=
  ⟨rfl, rfl⟩

/-- C6: whenever the pair of date strings fails validation — either string
unparseable as ISO `YYYY-MM-DD` or check-in not strictly before check-out —
the search returns the fixed invalid-range result (found=false,
total_found=0, empty properties, fixed summary) for every store, i.e.
before the resolver is consulted; malformed and inverted inputs are not
distinguished (same fixed result), and validation failure is exactly the
absence of parses `a < b`. -/
theorem invalid_range_rejected_before_resolver (term ci co : String)
    (h : validate_date_range ci co = false) :
    (∀ rows : List Row,
        search_properties rows term ci co = invalid_date_range_response term ci co)
    ∧ (validate_date_range ci co = false ↔
        ¬ ∃ a b, parseDate ci = some a ∧ parseDate co = some b ∧ a < b)
    ∧ (invalid_date_range_response term ci co).found = false
    ∧ (invalid_date_range_response term ci co).total_found = 0
    ∧ (invalid_date_range_response term ci co).properties = []
    ∧ (invalid_date_range_response term ci co).summary =
        "Invalid date range: check-in date must be before check-out date." := by
  refine ⟨fun rows => search_properties_invalid rows term ci co h, ?_, rfl, rfl, rfl, rfl⟩
  cases hci : parseDate ci <;> cases hco : parseDate co <;>
    simp [validate_date_range, hci, hco]

/-- C6 witness: a malformed date (February 30) and an inverted range both
hit the fixed invalid-range response on a concrete store. -/
theorem invalid_range_rejected_before_resolver_witness :
    search_properties demoRows "Aurelia" "2025-02-30" "2025-10-01"
        = invalid_date_range_response "Aurelia" "2025-02-30" "2025-10-01"
    ∧ search_properties demoRows "Aurelia" "2025-10-05" "2025-10-01"
        = invalid_date_range_response "Aurelia" "2025-10-05" "2025-10-01" :=
  ⟨(invalid_range_rejected_before_resolver "Aurelia" "2025-02-30" "2025-10-01"
      (by decide)).1 demoRows,
   (invalid_range_rejected_before_resolver "Aurelia" "2025-10-05" "2025-10-01"
      (by decide)).1 demoRows⟩

/-- C2: when at least one identifier contains the lower-cased trimmed term
as a contiguous substring, the resolver returns exactly the identifiers
containing it, in enumeration order (the filtered list), and the word-set
and scored stages never run. -/
theorem substring_stage_exact (term : String) (props : List String)
    (h : ∃ p ∈ props, strContainsSub (pyLower p) (pyStrip (pyLower term)) = true) :
    fuzzy_search_properties term props =
      props.filter (fun p => strContainsSub (pyLower p) (pyStrip (pyLower term))) := by
  obtain ⟨p, hp, hc⟩ := h
  have hne : (props.filter
      (fun p => strContainsSub (pyLower p) (pyStrip (pyLower term)))).isEmpty = false := by
    rw [List.isEmpty_eq_false]
    intro h0
    have hm : p ∈ props.filter
        (fun p => strContainsSub (pyLower p) (pyStrip (pyLower term))) :=
      List.mem_filter.mpr ⟨hp, hc⟩
    rw [h0] at hm
    cases hm
  simp [fuzzy_search_properties, hne]

/-- C2 witness at a concrete term and identifier set. -/
theorem substring_stage_exact_witness :
    (∃ p ∈ ["Aurelia Villa", "Siena House"],
        strContainsSub (pyLower p) (pyStrip (pyLower "Aurelia")) = true)
    ∧ fuzzy_search_properties "Aurelia" ["Aurelia Villa", "Siena House"]
        = List.filter (fun p => strContainsSub (pyLower p) (pyStrip (pyLower "Aurelia")))
            ["Aurelia Villa", "Siena House"] :=
  ⟨by decide, substring_stage_exact "Aurelia" ["Aurelia Villa", "Siena House"] (by decide)⟩

/-- C10: an empty or whitespace-only term lower-cases and trims to the
empty string, which is a substring of every identifier, so Stage 1 already
matches every distinct identifier and the search reports found=true with
total_found the number of distinct identifiers (the scoring stages, and
their division by the number of search words, are never reached). -/
theorem empty_term_stage1_matches_all (rows : List Row) (term ci co : String)
    (ht : pyStrip (pyLower term) = "")
    (hv : validate_date_range ci co = true)
    (hn : (rows.map (fun r => r.identifier)).eraseDups ≠ []) :
    fuzzy_search_properties term ((rows.map (fun r => r.identifier)).eraseDups)
        = (rows.map (fun r => r.identifier)).eraseDups
    ∧ (search_properties rows term ci co).found = true
    ∧ (search_properties rows term ci co).total_found
        = ((rows.map (fun r => r.identifier)).eraseDups).length := by
  have hfilter : ((rows.map (fun r => r.identifier)).eraseDups).filter
      (fun p => strContainsSub (pyLower p) (pyStrip (pyLower term)))
      = (rows.map (fun r => r.identifier)).eraseDups := by
    rw [List.filter_eq_self]
    intro a _
    rw [ht]
    exact strContainsSub_empty_needle _
  have hfu : fuzzy_search_properties term ((rows.map (fun r => r.identifier)).eraseDups)
      = (rows.map (fun r => r.identifier)).eraseDups := by
    have hne : (((rows.map (fun r => r.identifier)).eraseDups).filter
        (fun p => strContainsSub (pyLower p) (pyStrip (pyLower term)))).isEmpty = false := by
      rw [List.isEmpty_eq_false, hfilter]
      exact hn
    simp only [fuzzy_search_properties, hne, Bool.not_false, if_true]
    exact hfilter
  have hs := search_properties_format rows term ci co hv hn (by rw [hfu]; exact hn)
  rw [hfu] at hs
  exact ⟨hfu, by rw [hs]; rfl, by rw [hs]; rfl⟩

theorem availTotal_fst_iff (rows : List Row) (p : String) (ds : List Nat) :
    (availTotal rows p ds).1 = true ↔
      ∀ d ∈ ds, ∃ r, lookupRecord rows p d = some r ∧ r.status = "available" := by
  induction ds with
  | nil => simp [availTotal]
  | cons d ds ih =>
    cases h : lookupRecord rows p d with
    | none =>
      simp only [availTotal, h]
      constructor
      · intro hfalse; cases hfalse
      · intro hall
        obtain ⟨r, hr, _⟩ := hall d (by simp)
        rw [h] at hr
        cases hr
    | some r =>
      by_cases hst : r.status = "available"
      · have hb : (r.status == "available") = true := by simp [hst]
        simp only [availTotal, h, hb, if_true]
        constructor
        · intro hrest d2 hd2
          rcases List.mem_cons.mp hd2 with he | hm
          · exact ⟨r, by rw [he]; exact h, hst⟩
          · exact ih.mp hrest d2 hm
        · intro hall
          exact ih.mpr (fun d2 hd2 => hall d2 (List.mem_cons_of_mem d hd2))
      · have hb : (r.status == "available") = false := by simp [hst]
        simp only [availTotal, h, hb, if_false]
        constructor
        · intro hfalse; cases hfalse
        · intro hall
          obtain ⟨r2, hr2, hs2⟩ := hall d (by simp)
          rw [h] at hr2
          cases hr2
          exact absurd hs2 hst

theorem availTotal_snd_eq_sum (rows : List Row) (p : String) (ds : List Nat)
    (ha : (availTotal rows p ds).1 = true) :
    (availTotal rows p ds).2 =
      (ds.map (fun d =>
        ((lookupRecord rows p d).bind (fun r => r.listing_price)).getD 0)).sum := by
  induction ds with
  | nil => simp [availTotal]
  | cons d ds ih =>
    cases h : lookupRecord rows p d with
    | none => rw [availTotal, h] at ha; cases ha
    | some r =>
      by_cases hst : r.status = "available"
      · have hb : (r.status == "available") = true := by simp [hst]
        have ha2 : (availTotal rows p ds).1 = true := by
          rw [availTotal, h] at ha
          simpa [hb] using ha
        simp only [availTotal, h, hb, if_true, List.map_cons, List.sum_cons]
        rw [ih ha2]
        rfl
      · have hb : (r.status == "available") = false := by simp [hst]
        rw [availTotal, h] at ha
        simp [hb] at ha

theorem buildEntries_count (pmap : String → Option PropData) (l : List String) :
    (buildEntries pmap l).2.1 =
      l.countP (fun p => ((pmap p).map (fun pd => pd.is_available)).getD false) := by
  induction l with
  | nil => rfl
  | cons p ps ih =>
    cases h : pmap p with
    | none => simp [buildEntries, h, List.countP_cons, ih]
    | some pd =>
      cases hav : pd.is_available <;>
        simp [buildEntries, h, hav, List.countP_cons, ih]

theorem buildEntries_prices (pmap : String → Option PropData) (l : List String) :
    (buildEntries pmap l).1.filterMap (fun e => e.per_night_price) =
      (buildEntries pmap l).2.2 := by
  induction l with
  | nil => rfl
  | cons p ps ih =>
    cases h : pmap p with
    | none => simp [buildEntries, h, List.filterMap_cons, ih]
    | some pd =>
      cases hav : pd.is_available
      · simp [buildEntries, h, hav, List.filterMap_cons, ih]
      · cases hpr : pd.per_night_price <;>
          simp [buildEntries, h, hav, hpr, List.filterMap_cons, ih]

theorem find?_map_identifier {f : String → PropData}
    (hid : ∀ q, (f q).identifier = q) :
    ∀ (l : List String) (p : String), p ∈ l →
      (l.map f).find? (fun e => e.identifier == p) = some (f p) := by
  intro l
  induction l with
  | nil => intro p hp; cases hp
  | cons q qs ih =>
    intro p hp
    by_cases he : q = p
    · subst he
      simp [List.find?, hid]
    · have hb : ((f q).identifier == p) = false := by
        simp [hid, he]
      have hp2 : p ∈ qs := by
        cases hp with
        | head => exact absurd rfl he
        | tail _ hm => exact hm
      simp [List.find?, hb, ih p hp2]

theorem propertyMapLookup_map {f : String → PropData}
    (hid : ∀ q, (f q).identifier = q) (l : List String) (p : String)
    (hp : p ∈ l) : propertyMapLookup (l.map f) p = some (f p) := by
  unfold propertyMapLookup
  rw [← List.map_reverse]
  exact find?_map_identifier hid l.reverse p (List.mem_reverse.mpr hp)

theorem foldl_min_le_init : ∀ (xs : List Int) (x : Int), xs.foldl min x ≤ x := by
  intro xs
  induction xs with
  | nil => intro x; exact le_rfl
  | cons a as ih =>
    intro x
    calc (a :: as).foldl min x = as.foldl min (min x a) := rfl
    _ ≤ min x a := ih (min x a)
    _ ≤ x := min_le_left x a

theorem foldl_min_le_mem : ∀ (xs : List Int) (x y : Int), y ∈ xs →
    xs.foldl min x ≤ y := by
  intro xs
  induction xs with
  | nil => intro x y hy; cases hy
  | cons a as ih =>
    intro x y hy
    rcases List.mem_cons.mp hy with rfl | hm
    · calc (y :: as).foldl min x = as.foldl min (min x y) := rfl
      _ ≤ min x y := foldl_min_le_init as (min x y)
      _ ≤ y := min_le_right x y
    · exact ih (min x a) y hm

theorem foldl_min_mem : ∀ (xs : List Int) (x : Int),
    xs.foldl min x = x ∨ xs.foldl min x ∈ xs := by
  intro xs
  induction xs with
  | nil => intro x; exact Or.inl rfl
  | cons a as ih =>
    intro x
    rcases ih (min x a) with h | h
    · rcases min_cases x a with ⟨he, _⟩ | ⟨he, _⟩
      · exact Or.inl (by rw [List.foldl_cons, h, he])
      · exact Or.inr (by rw [List.foldl_cons, h, he]; exact List.mem_cons_self a as)
    · exact Or.inr (List.mem_cons_of_mem a h)

theorem foldl_max_ge_init : ∀ (xs : List Int) (x : Int), x ≤ xs.foldl max x := by
  intro xs
  induction xs with
  | nil => intro x; exact le_rfl
  | cons a as ih =>
    intro x
    calc x ≤ max x a := le_max_left x a
    _ ≤ as.foldl max (max x a) := ih (max x a)
    _ = (a :: as).foldl max x := rfl

theorem foldl_max_ge_mem : ∀ (xs : List Int) (x y : Int), y ∈ xs →
    y ≤ xs.foldl max x := by
  intro xs
  induction xs with
  | nil => intro x y hy; cases hy
  | cons a as ih =>
    intro x y hy
    rcases List.mem_cons.mp hy with rfl | hm
    · calc y ≤ max x y := le_max_right x y
      _ ≤ as.foldl max (max x y) := foldl_max_ge_init as (max x y)
      _ = (y :: as).foldl max x := rfl
    · exact ih (max x a) y hm

theorem foldl_max_mem : ∀ (xs : List Int) (x : Int),
    xs.foldl max x = x ∨ xs.foldl max x ∈ xs := by
  intro xs
  induction xs with
  | nil => intro x; exact Or.inl rfl
  | cons a as ih =>
    intro x
    rcases ih (max x a) with h | h
    · rcases max_cases x a with ⟨he, _⟩ | ⟨he, _⟩
      · exact Or.inl (by rw [List.foldl_cons, h, he])
      · exact Or.inr (by rw [List.foldl_cons, h, he]; exact List.mem_cons_self a as)
    · exact Or.inr (List.mem_cons_of_mem a h)

theorem listMinI_mem (l : List Int) (h : l ≠ []) : listMinI l ∈ l := by
  cases l with
  | nil => exact absurd rfl h
  | cons x xs =>
    rcases foldl_min_mem xs x with h2 | h2
    · rw [listMinI, h2]; exact List.mem_cons_self x xs
    · exact List.mem_cons_of_mem x (by rw [listMinI]; exact h2)

theorem listMinI_le (l : List Int) (y : Int) (hy : y ∈ l) : listMinI l ≤ y := by
  cases l with
  | nil => cases hy
  | cons x xs =>
    rcases List.mem_cons.mp hy with rfl | hm
    · exact foldl_min_le_init xs y
    · exact foldl_min_le_mem xs x y hm

theorem listMaxI_mem (l : List Int) (h : l ≠ []) : listMaxI l ∈ l := by
  cases l with
  | nil => exact absurd rfl h
  | cons x xs =>
    rcases foldl_max_mem xs x with h2 | h2
    · rw [listMaxI, h2]; exact List.mem_cons_self x xs
    · exact List.mem_cons_of_mem x (by rw [listMaxI]; exact h2)

theorem listMaxI_ge (l : List Int) (y : Int) (hy : y ∈ l) : y ≤ listMaxI l := by
  cases l with
  | nil => cases hy
  | cons x xs =>
    rcases List.mem_cons.mp hy with rfl | hm
    · exact foldl_max_ge_init xs y
    · exact foldl_max_ge_mem xs x y hm

theorem get_date_range_length (ci co : String) (a b : Nat)
    (hci : parseDate ci = some a) (hco : parseDate co = some b) :
    (get_date_range ci co).length = b - a := by
  simp [get_date_range, hci, hco]

theorem validate_get_date_range_pos (ci co : String)
    (hv : validate_date_range ci co = true) : 0 < (get_date_range ci co).length := by
  unfold validate_date_range at hv
  cases hci : parseDate ci with
  | none => rw [hci] at hv; cases hco : parseDate co <;> rw [hco] at hv <;> cases hv
  | some a =>
    cases hco : parseDate co with
    | none => rw [hci, hco] at hv; cases hv
    | some b =>
      rw [hci, hco] at hv
      have hab : a < b := of_decide_eq_true hv
      rw [get_date_range_length ci co a b hci hco]
      omega

/-- C10 witness: a whitespace-only term over the demo store matches all
three distinct identifiers. -/
theorem empty_term_stage1_matches_all_witness :
    (search_properties demoRows "   " "2025-10-01" "2025-10-02").found = true
    ∧ (search_properties demoRows "   " "2025-10-01" "2025-10-02").total_found = 3 :=
  ⟨(empty_term_stage1_matches_all demoRows "   " "2025-10-01" "2025-10-02"
      (by decide) (by decide) (by decide)).2.1,
   by
    have h := (empty_term_stage1_matches_all demoRows "   " "2025-10-01" "2025-10-02"
      (by decide) (by decide) (by decide)).2.2
    rw [h]
    decide⟩

/-- C3: a candidate is available for the range if and only if every date of
the half-open range has a record whose status is exactly "available"
(a missing record or any other status anywhere fails the candidate — the
loop's short-circuit is extensionally this full conjunction), and
`available_count` is the number of candidates passing this test. -/
theorem availability_count_characterization (rows : List Row) (term ci co : String)
    (hv : validate_date_range ci co = true)
    (hn : (rows.map (fun r => r.identifier)).eraseDups ≠ [])
    (hm : fuzzy_search_properties term
        ((rows.map (fun r => r.identifier)).eraseDups) ≠ []) :
    (∀ p, (availTotal rows p (get_date_range ci co)).1 = true ↔
        ∀ d ∈ get_date_range ci co,
          ∃ r, lookupRecord rows p d = some r ∧ r.status = "available")
    ∧ (search_properties rows term ci co).available_count =
        (fuzzy_search_properties term
          ((rows.map (fun r => r.identifier)).eraseDups)).countP
            (fun p => (availTotal rows p (get_date_range ci co)).1) := by
  refine ⟨fun p => availTotal_fst_iff rows p _, ?_⟩
  rw [search_properties_format rows term ci co hv hn hm]
  calc (format_search_response term ci co
        (fuzzy_search_properties term ((rows.map (fun r => r.identifier)).eraseDups))
        (get_property_availability_range rows
          (fuzzy_search_properties term ((rows.map (fun r => r.identifier)).eraseDups))
          ci co)).available_count
      = (buildEntries
          (propertyMapLookup (get_property_availability_range rows
            (fuzzy_search_properties term ((rows.map (fun r => r.identifier)).eraseDups))
            ci co))
          (fuzzy_search_properties term
            ((rows.map (fun r => r.identifier)).eraseDups))).2.1 := rfl
    _ = (fuzzy_search_properties term ((rows.map (fun r => r.identifier)).eraseDups)).countP
          (fun p => (((propertyMapLookup (get_property_availability_range rows
              (fuzzy_search_properties term ((rows.map (fun r => r.identifier)).eraseDups))
              ci co)) p).map (fun pd => pd.is_available)).getD false) :=
        buildEntries_count _ _
    _ = (fuzzy_search_properties term ((rows.map (fun r => r.identifier)).eraseDups)).countP
          (fun p => (availTotal rows p (get_date_range ci co)).1) := by
        refine List.countP_congr (fun p hp => ?_)
        rw [show propertyMapLookup (get_property_availability_range rows
            (fuzzy_search_properties term ((rows.map (fun r => r.identifier)).eraseDups))
            ci co) p = some (propAvail rows (get_date_range ci co) p) from
          propertyMapLookup_map (fun q => rfl) _ p hp]
        exact Iff.rfl

/-- C3 witness: over the demo store, the term "a" matches all three
identifiers and exactly one of them is available on both nights. -/
theorem availability_count_witness :
    (search_properties demoRows "a" "2025-10-01" "2025-10-03").available_count =
      (fuzzy_search_properties "a"
        ((demoRows.map (fun r => r.identifier)).eraseDups)).countP
          (fun p => (availTotal demoRows p (get_date_range "2025-10-01" "2025-10-03")).1) :=
  (availability_count_characterization demoRows "a" "2025-10-01" "2025-10-03"
    (by decide) (by decide) (by decide)).2

/-- C4: for an available candidate, the accumulated total is the sum of the
nightly prices (missing prices counting 0 without affecting availability);
the per-night price is the floor of total / nights when the total is
positive, absent when it is 0, and a 1-night stay with a positive total
reports exactly that total (= that night's price). -/
theorem per_night_price_characterization (rows : List Row) (p ci co : String)
    (hv : validate_date_range ci co = true)
    (ha : (availTotal rows p (get_date_range ci co)).1 = true) :
    (availTotal rows p (get_date_range ci co)).2 =
      ((get_date_range ci co).map
        (fun d => ((lookupRecord rows p d).bind (fun r => r.listing_price)).getD 0)).sum
    ∧ (0 < (availTotal rows p (get_date_range ci co)).2 →
        (propAvail rows (get_date_range ci co) p).per_night_price =
          some ((⌊((availTotal rows p (get_date_range ci co)).2 : ℚ) /
              ((get_date_range ci co).length : ℚ)⌋₊ : ℤ)))
    ∧ ((availTotal rows p (get_date_range ci co)).2 = 0 →
        (propAvail rows (get_date_range ci co) p).per_night_price = none)
    ∧ ((get_date_range ci co).length = 1 →
        0 < (availTotal rows p (get_date_range ci co)).2 →
        (propAvail rows (get_date_range ci co) p).per_night_price =
          some (availTotal rows p (get_date_range ci co)).2) := by
  have hlen : 0 < (get_date_range ci co).length := validate_get_date_range_pos ci co hv
  refine ⟨availTotal_snd_eq_sum rows p _ ha, ?_, ?_, ?_⟩
  · intro ht
    simp only [propAvail]
    rw [if_pos ⟨Nat.pos_iff_ne_zero.mp hlen, ht⟩]
    congr 1
    have h1 : (((availTotal rows p (get_date_range ci co)).2 : ℚ)) =
        (((availTotal rows p (get_date_range ci co)).2.toNat : ℕ) : ℚ) := by
      exact_mod_cast (congrArg (fun z : ℤ => (z : ℚ))
        (Int.toNat_of_nonneg (le_of_lt ht))).symm
    rw [h1, Nat.floor_div_nat, Nat.floor_natCast]
  · intro h0
    simp only [propAvail]
    rw [if_neg]
    intro hcond
    rw [h0] at hcond
    exact absurd hcond.2 (lt_irrefl 0)
  · intro hone ht
    simp only [propAvail]
    rw [if_pos ⟨Nat.pos_iff_ne_zero.mp hlen, ht⟩, hone]
    rw [Nat.div_one]
    congr 1
    exact Int.toNat_of_nonneg (le_of_lt ht)

/-- C4 witness: a 1-night stay priced 50000 reports exactly 50000. -/
theorem per_night_price_witness :
    (propAvail demoRows (get_date_range "2025-10-01" "2025-10-02")
      "Aurelia Villa").per_night_price = some 50000 := by
  have h := (per_night_price_characterization demoRows "Aurelia Villa"
    "2025-10-01" "2025-10-02" (by decide) (by decide)).2.2.2 (by decide) (by decide)
  rw [h]
  decide

theorem search_properties_noprops (rows : List Row) (term ci co : String)
    (hv : validate_date_range ci co = true)
    (hm : fuzzy_search_properties term
        ((rows.map (fun r => r.identifier)).eraseDups) = []) :
    search_properties rows term ci co = no_properties_found_response term ci co := by
  simp [search_properties, hv, hm]

theorem format_price_range_min_max (term ci co : String) (matched : List String)
    (pdata : List PropData) :
    ((∃ pr, (format_search_response term ci co matched pdata).price_range = some pr) ↔
      2 ≤ ((format_search_response term ci co matched pdata).properties.filterMap
          (fun e => e.per_night_price)).eraseDups.length)
    ∧ ∀ pr, (format_search_response term ci co matched pdata).price_range = some pr →
        (pr.1 ∈ (format_search_response term ci co matched pdata).properties.filterMap
            (fun e => e.per_night_price)
          ∧ ∀ x ∈ (format_search_response term ci co matched pdata).properties.filterMap
              (fun e => e.per_night_price), pr.1 ≤ x)
        ∧ (pr.2 ∈ (format_search_response term ci co matched pdata).properties.filterMap
            (fun e => e.per_night_price)
          ∧ ∀ x ∈ (format_search_response term ci co matched pdata).properties.filterMap
              (fun e => e.per_night_price), x ≤ pr.2) := by
  have hprices : (format_search_response term ci co matched pdata).properties.filterMap
      (fun e => e.per_night_price)
      = (buildEntries (propertyMapLookup pdata) matched).2.2 :=
    buildEntries_prices _ _
  rw [hprices]
  have hpr : (format_search_response term ci co matched pdata).price_range
      = if !(buildEntries (propertyMapLookup pdata) matched).2.2.isEmpty
          && decide ((buildEntries (propertyMapLookup pdata) matched).2.2.eraseDups.length > 1)
        then some (listMinI (buildEntries (propertyMapLookup pdata) matched).2.2,
          listMaxI (buildEntries (propertyMapLookup pdata) matched).2.2)
        else none := rfl
  by_cases h2 : 2 ≤ (buildEntries (propertyMapLookup pdata) matched).2.2.eraseDups.length
  · have hne : (buildEntries (propertyMapLookup pdata) matched).2.2 ≠ [] := by
      intro h0
      rw [h0] at h2
      exact absurd h2 (by decide)
    have hcond : (!(buildEntries (propertyMapLookup pdata) matched).2.2.isEmpty
        && decide ((buildEntries (propertyMapLookup pdata) matched).2.2.eraseDups.length > 1))
        = true := by
      rw [List.isEmpty_eq_false.mpr hne]
      simpa using h2
    rw [hpr, hcond]
    refine ⟨iff_of_true ⟨_, rfl⟩ h2, ?_⟩
    intro pr hpr2
    simp only [if_true] at hpr2
    have hpr3 : pr = (listMinI (buildEntries (propertyMapLookup pdata) matched).2.2,
        listMaxI (buildEntries (propertyMapLookup pdata) matched).2.2) := by
      cases hpr2
      rfl
    rw [hpr3]
    exact ⟨⟨listMinI_mem _ hne, fun x hx => listMinI_le _ x hx⟩,
      ⟨listMaxI_mem _ hne, fun x hx => listMaxI_ge _ x hx⟩⟩
  · have hcond : (!(buildEntries (propertyMapLookup pdata) matched).2.2.isEmpty
        && decide ((buildEntries (propertyMapLookup pdata) matched).2.2.eraseDups.length > 1))
        = false := by
      have h3 : ¬ (buildEntries (propertyMapLookup pdata) matched).2.2.eraseDups.length > 1 := by
        omega
      simp [h3]
    rw [hpr, hcond]
    refine ⟨iff_of_false (by rintro ⟨pr, hpr2⟩; simp at hpr2) h2, ?_⟩
    intro pr hpr2
    simp at hpr2

/-- C5: `price_range` is present exactly when the available candidates
carry at least two distinct per-night prices (absent when all share one
price or none has a price), and when present it is the minimum and maximum
of those per-night prices.  The error responses carry no prices and no
price range, so the equivalence holds for every search. -/
theorem price_range_characterization (rows : List Row) (term ci co : String) :
    ((∃ pr, (search_properties rows term ci co).price_range = some pr) ↔
      2 ≤ ((search_properties rows term ci co).properties.filterMap
          (fun e => e.per_night_price)).eraseDups.length)
    ∧ ∀ pr, (search_properties rows term ci co).price_range = some pr →
        (pr.1 ∈ (search_properties rows term ci co).properties.filterMap
            (fun e => e.per_night_price)
          ∧ ∀ x ∈ (search_properties rows term ci co).properties.filterMap
              (fun e => e.per_night_price), pr.1 ≤ x)
        ∧ (pr.2 ∈ (search_properties rows term ci co).properties.filterMap
            (fun e => e.per_night_price)
          ∧ ∀ x ∈ (search_properties rows term ci co).properties.filterMap
              (fun e => e.per_night_price), x ≤ pr.2) := by
  by_cases hv : validate_date_range ci co = true
  · by_cases hm : fuzzy_search_properties term
        ((rows.map (fun r => r.identifier)).eraseDups) = []
    · rw [search_properties_noprops rows term ci co hv hm]
      refine ⟨iff_of_false
          (fun h => by obtain ⟨pr, hpr⟩ := h; exact Option.noConfusion hpr) ?_,
        fun pr hpr => Option.noConfusion hpr⟩
      intro h
      rw [show (no_properties_found_response term ci co).properties = [] from rfl] at h
      exact absurd h (by decide)
    · have hn : (rows.map (fun r => r.identifier)).eraseDups ≠ [] := by
        intro h0
        apply hm
        rw [h0]
        rfl
      rw [search_properties_format rows term ci co hv hn hm]
      exact format_price_range_min_max term ci co _ _
  · have hv2 : validate_date_range ci co = false := by
      cases h : validate_date_range ci co
      · rfl
      · exact absurd h hv
    rw [search_properties_invalid rows term ci co hv2]
    refine ⟨iff_of_false
        (fun h => by obtain ⟨pr, hpr⟩ := h; exact Option.noConfusion hpr) ?_,
      fun pr hpr => Option.noConfusion hpr⟩
    intro h
    rw [show (invalid_date_range_response term ci co).properties = [] from rfl] at h
    exact absurd h (by decide)

/-- C5 witness: two available candidates at 40000 and 60000 per night give
two distinct prices, so a price range is present. -/
theorem price_range_characterization_witness :
    2 ≤ ((search_properties twoPriceRows "villa" "2025-10-01"
        "2025-10-02").properties.filterMap
          (fun e => e.per_night_price)).eraseDups.length :=
  (price_range_characterization twoPriceRows "villa" "2025-10-01" "2025-10-02").1.mp
    ⟨(40000, 60000), by decide⟩

theorem format_zero_available_summary (term ci co : String) (matched : List String)
    (pdata : List PropData) (hm : matched ≠ [])
    (h0 : (format_search_response term ci co matched pdata).available_count = 0) :
    (format_search_response term ci co matched pdata).summary =
      "Found " ++ toString (format_search_response term ci co matched pdata).total_found
        ++ " " ++ term ++ " properties, but none are available from "
        ++ formatLongDate ci ++ " to " ++ formatLongDate co ++ "." := by
  have hc : (buildEntries (propertyMapLookup pdata) matched).2.1 = 0 := h0
  have hlen : (matched.length == 0) = false := by
    cases hml : matched with
    | nil => exact absurd hml hm
    | cons a l => rfl
  show generate_summary_range term ci co matched.length
      (buildEntries (propertyMapLookup pdata) matched).2.1 _ _ = _
  rw [hc]
  simp only [generate_summary_range, hlen]
  rfl

/-- C1 counterexample: the resolver finds one candidate
("Aurelia" → "Aurelia Villa"), zero candidates are available for the
range, yet the returned result has found = true — the claim predicts
found = false for this business condition. -/
theorem zero_availability_found_true_counterexample :
    (search_properties bookedRows "Aurelia" "2025-10-01" "2025-10-02").total_found = 1
    ∧ (search_properties bookedRows "Aurelia" "2025-10-01" "2025-10-02").available_count = 0
    ∧ (search_properties bookedRows "Aurelia" "2025-10-01" "2025-10-02").found = true := by
  refine ⟨?_, ?_, ?_⟩ <;> decide

/-- C1 (amended): with a loaded store, search never raises for any input —
every business condition yields a normal result.  An invalid range and a
resolver miss surface as found=false with their fixed deterministic
summaries; a resolver hit with zero available candidates surfaces as
found=true with available_count = 0 and the deterministic none-available
summary (not found=false as the claim stated). -/
theorem business_conditions_never_raise (svc : PropertySearchService)
    (rows : List Row) (term ci co : String) (hl : svc.data_cache = some rows) :
    svc.search term ci co = Except.ok (search_properties rows term ci co)
    ∧ (validate_date_range ci co = false →
        search_properties rows term ci co = invalid_date_range_response term ci co)
    ∧ (validate_date_range ci co = true →
        fuzzy_search_properties term ((rows.map (fun r => r.identifier)).eraseDups) = [] →
        search_properties rows term ci co = no_properties_found_response term ci co)
    ∧ (validate_date_range ci co = true →
        (rows.map (fun r => r.identifier)).eraseDups ≠ [] →
        fuzzy_search_properties term ((rows.map (fun r => r.identifier)).eraseDups) ≠ [] →
        (search_properties rows term ci co).found = true
        ∧ ((search_properties rows term ci co).available_count = 0 →
            (search_properties rows term ci co).summary =
              "Found " ++ toString (search_properties rows term ci co).total_found
                ++ " " ++ term ++ " properties, but none are available from "
                ++ formatLongDate ci ++ " to " ++ formatLongDate co ++ ".")) := by
  refine ⟨by simp [PropertySearchService.search, hl],
    fun hv => search_properties_invalid rows term ci co hv,
    fun hv hm => search_properties_noprops rows term ci co hv hm,
    fun hv hn hm => ?_⟩
  have hs := search_properties_format rows term ci co hv hn hm
  rw [hs]
  exact ⟨rfl, fun h0 => format_zero_available_summary term ci co _ _ hm h0⟩

/-- C1 witness: a loaded service returns a normal (ok) result, with
found=true, for a search whose only candidate is fully booked. -/
theorem business_conditions_never_raise_witness :
    PropertySearchService.search { data_cache := some bookedRows }
        "Aurelia" "2025-10-01" "2025-10-02"
      = Except.ok (search_properties bookedRows "Aurelia" "2025-10-01" "2025-10-02")
    ∧ (search_properties bookedRows "Aurelia" "2025-10-01" "2025-10-02").found = true :=
  ⟨(business_conditions_never_raise { data_cache := some bookedRows } bookedRows
      "Aurelia" "2025-10-01" "2025-10-02" rfl).1,
   ((business_conditions_never_raise { data_cache := some bookedRows } bookedRows
      "Aurelia" "2025-10-01" "2025-10-02" rfl).2.2.2
      (by decide) (by decide) (by decide)).1⟩

theorem contains_iff_mem (l : List String) (a : String) :
    l.contains a = true ↔ a ∈ l := by
  show l.elem a = true ↔ a ∈ l
  exact List.elem_iff

theorem fuzzRatioS_den_pos (a b : String) : 0 < (fuzzRatioS a b).den := by
  unfold fuzzRatioS
  by_cases h : a.length + b.length = 0
  · rw [if_pos h]; exact Nat.one_pos
  · rw [if_neg h]; exact Nat.pos_of_ne_zero h

theorem Score.le_iff_val {a b : Score} (ha : 0 < a.den) (hb : 0 < b.den) :
    Score.le a b = true ↔ a.val ≤ b.val := by
  unfold Score.le Score.val
  rw [decide_eq_true_eq,
    div_le_div_iff₀ (by exact_mod_cast ha) (by exact_mod_cast hb)]
  exact_mod_cast Iff.rfl

theorem Score.ofNat_val (n : Nat) : (Score.ofNat n).val = n := by
  unfold Score.ofNat Score.val
  simp

theorem Score.ofNat_le_iff (n : Nat) (s : Score) (hs : 0 < s.den) :
    Score.le (Score.ofNat n) s = true ↔ (n : ℚ) ≤ s.val := by
  rw [Score.le_iff_val Nat.one_pos hs, Score.ofNat_val]

theorem specificM_iff (ss ps : List String) :
    ((!(ss.filter (fun w => ps.contains w)).isEmpty)
      || ss.any (fun w => ps.any (fun v =>
          Score.le (Score.ofNat 85) (fuzzRatioS w v)))) = true ↔
    specificWordMatch ss ps := by
  rw [Bool.or_eq_true]
  constructor
  · intro h
    rcases h with h | h
    · rw [Bool.not_eq_true', List.isEmpty_eq_false] at h
      obtain ⟨w, hw⟩ := List.exists_mem_of_ne_nil _ h
      have hw2 := List.mem_filter.mp hw
      exact ⟨w, hw2.1, w, (contains_iff_mem ps w).mp hw2.2, Or.inl rfl⟩
    · rw [List.any_eq_true] at h
      obtain ⟨w, hw, hw2⟩ := h
      rw [List.any_eq_true] at hw2
      obtain ⟨v, hv, hv2⟩ := hw2
      refine ⟨w, hw, v, hv, Or.inr ?_⟩
      have h85 := (Score.ofNat_le_iff 85 (fuzzRatioS w v) (fuzzRatioS_den_pos w v)).mp hv2
      simpa [fuzzRatioQ] using h85
  · rintro ⟨w, hw, v, hv, he | hr⟩
    · left
      rw [Bool.not_eq_true', List.isEmpty_eq_false]
      intro h0
      have : w ∈ ss.filter (fun w => ps.contains w) :=
        List.mem_filter.mpr ⟨hw, (contains_iff_mem ps w).mpr (he ▸ hv)⟩
      rw [h0] at this
      cases this
    · right
      rw [List.any_eq_true]
      refine ⟨w, hw, ?_⟩
      rw [List.any_eq_true]
      refine ⟨v, hv, ?_⟩
      rw [Score.ofNat_le_iff 85 (fuzzRatioS w v) (fuzzRatioS_den_pos w v)]
      simpa [fuzzRatioQ] using hr

theorem stage2Match_generic (sw : List String) (p : String)
    (hsp : sw.filter (fun w => !GENERIC_WORDS.contains w) = []) :
    stage2Match sw p = sw.all (fun w => (propWords p).contains w) := by
  simp only [stage2Match, hsp, List.isEmpty_nil, Bool.not_true]
  rw [if_neg Bool.false_ne_true]

theorem stage2Match_specific (sw : List String) (p : String)
    (hsp : sw.filter (fun w => !GENERIC_WORDS.contains w) ≠ []) :
    stage2Match sw p =
      ((sw.all fun w => (propWords p).contains w)
        || (Score.le { num := 4, den := 5 }
              { num := (sw.filter (fun w => (propWords p).contains w)).length,
                den := sw.length }
            && ((!((sw.filter (fun w => !GENERIC_WORDS.contains w)).filter
                  (fun w => ((propWords p).filter
                    (fun w => !GENERIC_WORDS.contains w)).contains w)).isEmpty)
              || (sw.filter (fun w => !GENERIC_WORDS.contains w)).any (fun w =>
                  ((propWords p).filter (fun w => !GENERIC_WORDS.contains w)).any
                    (fun v => Score.le (Score.ofNat 85) (fuzzRatioS w v)))))) := by
  have hb : (sw.filter (fun w => !GENERIC_WORDS.contains w)).isEmpty = false :=
    List.isEmpty_eq_false.mpr hsp
  simp only [stage2Match, hb, Bool.not_false]
  rw [if_pos trivial]

theorem stage2Match_iff (sw : List String) (p : String) :
    stage2Match sw p = true ↔ Stage2Spec sw p := by
  unfold Stage2Spec
  by_cases hsp : (sw.filter (fun w => !GENERIC_WORDS.contains w)) = []
  · rw [stage2Match_generic sw p hsp]
    constructor
    · intro h
      refine ⟨fun hne => absurd hsp hne, fun _ => ?_⟩
      intro w hw
      exact (contains_iff_mem _ w).mp ((List.all_eq_true.mp h) w hw)
    · intro h
      rw [List.all_eq_true]
      intro w hw
      exact (contains_iff_mem _ w).mpr (h.2 hsp w hw)
  · rw [stage2Match_specific sw p hsp]
    have hswne : sw ≠ [] := by
      intro h0
      rw [h0] at hsp
      exact hsp rfl
    have hswpos : 0 < sw.length := List.length_pos.mpr hswne
    have hswposQ : (0 : ℚ) < (sw.length : ℚ) := by exact_mod_cast hswpos
    have hratio : Score.le { num := 4, den := 5 }
        { num := (sw.filter (fun w => (propWords p).contains w)).length, den := sw.length }
        = true ↔
        (4 : ℚ) / 5 ≤ ((sw.filter (fun w => (propWords p).contains w)).length : ℚ)
          / (sw.length : ℚ) := by
      rw [Score.le_iff_val (by norm_num) hswpos]
      exact Iff.rfl
    rw [Bool.or_eq_true, Bool.and_eq_true]
    constructor
    · intro h
      refine ⟨fun _ => ?_, fun he => absurd he hsp⟩
      rcases h with h | ⟨h1, h2⟩
      · left
        intro w hw
        exact (contains_iff_mem _ w).mp ((List.all_eq_true.mp h) w hw)
      · right
        exact ⟨hratio.mp h1, (specificM_iff _ _).mp h2⟩
    · intro h
      rcases h.1 hsp with h2 | ⟨h2, h3⟩
      · left
        rw [List.all_eq_true]
        exact fun w hw => (contains_iff_mem _ w).mpr (h2 w hw)
      · right
        exact ⟨hratio.mpr h2, (specificM_iff _ _).mpr h3⟩

/-- C7: when Stage 1 finds nothing, Stage 2 returns exactly the identifiers
satisfying the word-set condition: with specific search words present, full
subset containment OR (≥ 80% of the search words present AND an exact or
≥ 85-similar specific-word pair); with only generic search words, subset
containment alone. -/
theorem wordset_stage_characterization (term : String) (props : List String)
    (h1 : props.filter
      (fun p => strContainsSub (pyLower p) (pyStrip (pyLower term))) = []) :
    (props.filter (stage2Match ((pySplit (pyStrip (pyLower term))).eraseDups)) ≠ [] →
      fuzzy_search_properties term props =
        props.filter (stage2Match ((pySplit (pyStrip (pyLower term))).eraseDups)))
    ∧ ∀ p, stage2Match ((pySplit (pyStrip (pyLower term))).eraseDups) p = true ↔
        Stage2Spec ((pySplit (pyStrip (pyLower term))).eraseDups) p := by
  refine ⟨fun hw => ?_, fun p => stage2Match_iff _ p⟩
  have he : (!(props.filter
      (fun p => strContainsSub (pyLower p) (pyStrip (pyLower term)))).isEmpty) = false := by
    rw [h1]; rfl
  have hwne : (!(props.filter
      (stage2Match ((pySplit (pyStrip (pyLower term))).eraseDups))).isEmpty) = true := by
    rw [Bool.not_eq_true', List.isEmpty_eq_false]
    exact hw
  simp only [fuzzy_search_properties, he, hwne, if_true]
  rw [if_neg Bool.false_ne_true]

/-- C7 witness: "Villa Aurelia" has no substring match but Stage 2 matches
"Aurelia Villa" by word-set containment. -/
theorem wordset_stage_characterization_witness :
    fuzzy_search_properties "Villa Aurelia" ["Aurelia Villa", "Siena House"] =
      List.filter (stage2Match ((pySplit (pyStrip (pyLower "Villa Aurelia"))).eraseDups))
        ["Aurelia Villa", "Siena House"] :=
  (wordset_stage_characterization "Villa Aurelia" ["Aurelia Villa", "Siena House"]
    (by decide)).1 (by decide)

theorem Score.slt_iff_val {a b : Score} (ha : 0 < a.den) (hb : 0 < b.den) :
    Score.slt a b = true ↔ a.val < b.val := by
  unfold Score.slt Score.val
  rw [decide_eq_true_eq,
    div_lt_div_iff₀ (by exact_mod_cast ha) (by exact_mod_cast hb)]
  exact_mod_cast Iff.rfl

theorem Score.le_total (a b : Score) :
    Score.le a b = true ∨ Score.le b a = true := by
  unfold Score.le
  rcases Nat.le_total (a.num * b.den) (b.num * a.den) with h | h
  · exact Or.inl (decide_eq_true h)
  · exact Or.inr (decide_eq_true h)

theorem Score.le_trans_val {a b c : Score} (ha : 0 < a.den) (hb : 0 < b.den)
    (hc : 0 < c.den) (h1 : Score.le a b = true) (h2 : Score.le b c = true) :
    Score.le a c = true := by
  rw [Score.le_iff_val ha hb] at h1
  rw [Score.le_iff_val hb hc] at h2
  rw [Score.le_iff_val ha hc]
  exact le_trans h1 h2

theorem Score.pmax_den_pos {a b : Score} (ha : 0 < a.den) (hb : 0 < b.den) :
    0 < (Score.pmax a b).den := by
  unfold Score.pmax
  by_cases h : Score.slt a b = true
  · rw [if_pos h]; exact hb
  · rw [if_neg h]; exact ha

theorem Score.pmax_val {a b : Score} (ha : 0 < a.den) (hb : 0 < b.den) :
    (Score.pmax a b).val = max a.val b.val := by
  unfold Score.pmax
  by_cases h : Score.slt a b = true
  · rw [if_pos h, max_eq_right (le_of_lt ((Score.slt_iff_val ha hb).mp h))]
  · rw [if_neg h, max_eq_left]
    have h2 : ¬ a.val < b.val := fun hlt =>
      h ((Score.slt_iff_val ha hb).mpr hlt)
    exact le_of_not_lt h2

theorem insertByScoreDesc_perm {α : Type} (key : α → Score) (x : α) (l : List α) :
    (insertByScoreDesc key x l).Perm (x :: l) := by
  induction l with
  | nil => exact List.Perm.refl _
  | cons y ys ih =>
    unfold insertByScoreDesc
    by_cases h : Score.le (key x) (key y) = true
    · rw [if_pos h]
      exact (ih.cons y).trans (List.Perm.swap x y ys)
    · rw [if_neg h]

theorem insertByScoreDesc_mem {α : Type} (key : α → Score) (x z : α) (l : List α) :
    z ∈ insertByScoreDesc key x l ↔ z = x ∨ z ∈ l := by
  rw [(insertByScoreDesc_perm key x l).mem_iff]
  exact List.mem_cons

theorem sortByScoreDesc_perm {α : Type} (key : α → Score) (l : List α) :
    (sortByScoreDesc key l).Perm l := by
  have hgen : ∀ (l acc : List α),
      (l.foldl (fun acc x => insertByScoreDesc key x acc) acc).Perm (acc ++ l) := by
    intro l
    induction l with
    | nil => intro acc; simp
    | cons x xs ih =>
      intro acc
      have h1 := ih (insertByScoreDesc key x acc)
      have h2 : (insertByScoreDesc key x acc ++ xs).Perm (acc ++ x :: xs) := by
        have h3 : (insertByScoreDesc key x acc ++ xs).Perm ((x :: acc) ++ xs) :=
          (insertByScoreDesc_perm key x acc).append_right xs
        exact h3.trans List.perm_middle.symm
      exact h1.trans h2
  have h := hgen l []
  simpa using h

theorem insertByScoreDesc_sorted {α : Type} (key : α → Score) (x : α) (l : List α)
    (hx : 0 < (key x).den) (hl : ∀ y ∈ l, 0 < (key y).den)
    (hs : l.Pairwise (fun a b => Score.le (key b) (key a) = true)) :
    (insertByScoreDesc key x l).Pairwise
      (fun a b => Score.le (key b) (key a) = true) := by
  induction l with
  | nil => exact List.pairwise_singleton _ x
  | cons y ys ih =>
    rw [List.pairwise_cons] at hs
    unfold insertByScoreDesc
    by_cases h : Score.le (key x) (key y) = true
    · rw [if_pos h]
      rw [List.pairwise_cons]
      constructor
      · intro z hz
        rcases (insertByScoreDesc_mem key x z ys).mp hz with rfl | hzys
        · exact h
        · exact hs.1 z hzys
      · exact ih (fun z hz => hl z (List.mem_cons_of_mem y hz)) hs.2
    · rw [if_neg h]
      have hyx : Score.le (key y) (key x) = true := by
        rcases Score.le_total (key x) (key y) with h2 | h2
        · exact absurd h2 h
        · exact h2
      rw [List.pairwise_cons]
      constructor
      · intro z hz
        rcases List.mem_cons.mp hz with rfl | hzys
        · exact hyx
        · exact Score.le_trans_val (hl z (List.mem_cons_of_mem y hzys))
            (hl y (List.mem_cons_self y ys)) hx (hs.1 z hzys) hyx
      · exact List.pairwise_cons.mpr hs

theorem sortByScoreDesc_sorted {α : Type} (key : α → Score) (l : List α)
    (hl : ∀ y ∈ l, 0 < (key y).den) :
    (sortByScoreDesc key l).Pairwise
      (fun a b => Score.le (key b) (key a) = true) := by
  have hgen : ∀ (l acc : List α), (∀ y ∈ l, 0 < (key y).den) →
      (∀ y ∈ acc, 0 < (key y).den) →
      acc.Pairwise (fun a b => Score.le (key b) (key a) = true) →
      (l.foldl (fun acc x => insertByScoreDesc key x acc) acc).Pairwise
        (fun a b => Score.le (key b) (key a) = true) := by
    intro l
    induction l with
    | nil => intro acc _ _ hacc; exact hacc
    | cons x xs ih =>
      intro acc hxl hacc hsort
      refine ih (insertByScoreDesc key x acc)
        (fun y hy => hxl y (List.mem_cons_of_mem x hy))
        (fun y hy => ?_)
        (insertByScoreDesc_sorted key x acc
          (hxl x (List.mem_cons_self x xs)) hacc hsort)
      rcases (insertByScoreDesc_mem key x y acc).mp hy with rfl | hyacc
      · exact hxl y (List.mem_cons_self y xs)
      · exact hacc y hyacc
  exact hgen l [] hl (fun y hy => absurd hy (List.not_mem_nil y)) List.Pairwise.nil

theorem dictUpdateMax_cons_ne (e : String × Score) (rest : List (String × Score))
    (k : String) (v : Score) (he : (e.1 == k) = false) :
    dictUpdateMax (e :: rest) k v = e :: dictUpdateMax rest k v := by
  have hany : (e :: rest).any (fun e2 => e2.1 == k)
      = rest.any (fun e2 => e2.1 == k) := by
    rw [List.any_cons, he, Bool.false_or]
  unfold dictUpdateMax
  rw [hany]
  by_cases h : rest.any (fun e2 => e2.1 == k) = true
  · rw [if_pos h, if_pos h, List.map_cons, he, Bool.false_and,
      if_neg Bool.false_ne_true]
  · rw [if_neg h, if_neg h]
    rfl

theorem dictUpdateMax_cons_eq (e : String × Score) (rest : List (String × Score))
    (k : String) (v : Score) (he : (e.1 == k) = true)
    (hrest : rest.any (fun e2 => e2.1 == k) = false) :
    dictUpdateMax (e :: rest) k v = (k, Score.pmax e.2 v) :: rest := by
  have hany : (e :: rest).any (fun e2 => e2.1 == k) = true := by
    rw [List.any_cons, he, Bool.true_or]
  have hk : e.1 = k := eq_of_beq he
  unfold dictUpdateMax
  rw [if_pos hany, List.map_cons]
  congr 1
  · rw [he, Bool.true_and]
    unfold Score.pmax
    by_cases h2 : Score.slt e.2 v = true
    · rw [if_pos h2, if_pos h2]
    · rw [if_neg h2, if_neg h2, ← hk]
  · have hall : ∀ e2 ∈ rest, (e2.1 == k) = false := by
      intro e2 he2
      by_cases h3 : (e2.1 == k) = true
      · have h4 : rest.any (fun e2 => e2.1 == k) = true :=
          List.any_eq_true.mpr ⟨e2, he2, h3⟩
        rw [h4] at hrest
        cases hrest
      · exact Bool.eq_false_iff.mpr h3
    have hmapid : rest.map (fun e2 =>
        if (e2.1 == k && Score.slt e2.2 v) = true then (k, v) else e2)
        = rest.map id :=
      List.map_congr_left (fun e2 he2 => by
        rw [hall e2 he2, Bool.false_and, if_neg Bool.false_ne_true]
        rfl)
    rw [hmapid, List.map_id]

theorem dictLookup_nil (k : String) : dictLookup [] k = none := rfl

theorem dictLookup_cons (e : String × Score) (d : List (String × Score)) (k : String) :
    dictLookup (e :: d) k =
      if (e.1 == k) = true then some e.2 else dictLookup d k := by
  by_cases h : (e.1 == k) = true
  · rw [if_pos h]
    simp only [dictLookup, List.find?_cons, h, if_true]
    rfl
  · have h2 : (e.1 == k) = false := Bool.eq_false_iff.mpr h
    rw [if_neg h]
    simp only [dictLookup, List.find?_cons, h2]

theorem dictUpdateMax_nil (k : String) (v : Score) :
    dictUpdateMax [] k v = [(k, v)] := rfl

theorem keysNodup_updateMax (d : List (String × Score)) (k : String) (v : Score)
    (hd : keysNodup d) : keysNodup (dictUpdateMax d k v) := by
  unfold dictUpdateMax
  by_cases h : d.any (fun e => e.1 == k) = true
  · rw [if_pos h]
    unfold keysNodup at hd ⊢
    have hmap : (d.map (fun e =>
        if (e.1 == k && Score.slt e.2 v) = true then (k, v) else e)).map Prod.fst
        = d.map Prod.fst := by
      rw [List.map_map]
      apply List.map_congr_left
      intro e _
      show (if (e.1 == k && Score.slt e.2 v) = true then ((k : String), v) else e).1 = e.1
      by_cases h2 : (e.1 == k && Score.slt e.2 v) = true
      · rw [if_pos h2]
        have h3 : (e.1 == k) = true := by
          rw [Bool.and_eq_true] at h2
          exact h2.1
        exact (eq_of_beq h3).symm
      · rw [if_neg h2]
    rw [hmap]
    exact hd
  · rw [if_neg h]
    unfold keysNodup at hd ⊢
    rw [List.map_append]
    rw [List.nodup_append]
    refine ⟨hd, List.nodup_singleton k, ?_⟩
    intro a ha hak
    have hak2 : a = k := by
      cases hak with
      | head => rfl
      | tail _ h2 => cases h2
    obtain ⟨e, he, hfst⟩ := List.mem_map.mp ha
    apply h
    refine List.any_eq_true.mpr ⟨e, he, ?_⟩
    show (e.1 == k) = true
    rw [hfst, hak2]
    exact beq_self_eq_true _

theorem beq_false_of_ne {a b : String} (h : a ≠ b) : ¬ (a == b) = true :=
  fun h2 => h (eq_of_beq h2)

theorem dictLookup_updateMax (d : List (String × Score)) (k : String) (v : Score)
    (k2 : String) (hd : keysNodup d) :
    dictLookup (dictUpdateMax d k v) k2 =
      if k2 = k then optPmax (dictLookup d k) v else dictLookup d k2 := by
  induction d with
  | nil =>
    rw [dictUpdateMax_nil, dictLookup_cons, dictLookup_nil, dictLookup_nil]
    by_cases h : k2 = k
    · subst h
      rw [if_pos (beq_self_eq_true _), if_pos rfl]
      rfl
    · rw [if_neg (beq_false_of_ne (fun h2 => h h2.symm)), if_neg h]
  | cons e rest ih =>
    have hdrest : keysNodup rest := by
      unfold keysNodup at hd ⊢
      exact (List.nodup_cons.mp hd).2
    by_cases he : (e.1 == k) = true
    · have hk : e.1 = k := eq_of_beq he
      have hrest : rest.any (fun e2 => e2.1 == k) = false := by
        unfold keysNodup at hd
        have hnotin := (List.nodup_cons.mp hd).1
        by_cases h2 : rest.any (fun e2 => e2.1 == k) = true
        · obtain ⟨e2, he2, hb⟩ := List.any_eq_true.mp h2
          exact absurd (List.mem_map.mpr ⟨e2, he2, (eq_of_beq hb).trans hk.symm⟩)
            hnotin
        · exact Bool.eq_false_iff.mpr h2
      rw [dictUpdateMax_cons_eq e rest k v he hrest, dictLookup_cons]
      by_cases h2 : k2 = k
      · subst h2
        rw [if_pos (beq_self_eq_true _), if_pos rfl, dictLookup_cons,
          if_pos (by rw [hk]; exact beq_self_eq_true _)]
        rfl
      · rw [if_neg (beq_false_of_ne (fun h3 => h2 h3.symm)), if_neg h2,
          dictLookup_cons,
          if_neg (beq_false_of_ne (fun h3 => h2 ((hk.symm.trans h3).symm)))]
    · have he2 : (e.1 == k) = false := Bool.eq_false_iff.mpr he
      rw [dictUpdateMax_cons_ne e rest k v he2, dictLookup_cons, ih hdrest]
      by_cases h2 : k2 = k
      · subst h2
        rw [if_neg he, if_pos rfl, if_pos rfl, dictLookup_cons, if_neg he]
      · by_cases h3 : (e.1 == k2) = true
        · rw [if_pos h3, if_neg h2, dictLookup_cons, if_pos h3]
        · rw [if_neg h3, if_neg h2, if_neg h2, dictLookup_cons, if_neg h3]

theorem keysNodup_fold (props : List String) (es : List (Nat × Score)) :
    ∀ d, keysNodup d →
      keysNodup (es.foldl (fun d e => dictUpdateMax d (props.getD e.1 "") e.2) d) := by
  induction es with
  | nil => intro d hd; exact hd
  | cons e es ih =>
    intro d hd
    rw [List.foldl_cons]
    exact ih _ (keysNodup_updateMax _ _ _ hd)

theorem dictLookup_fold (props : List String) (es : List (Nat × Score)) :
    ∀ (d : List (String × Score)), keysNodup d → ∀ k,
      dictLookup (es.foldl (fun d e => dictUpdateMax d (props.getD e.1 "") e.2) d) k
      = optPmaxFold (dictLookup d k)
          (es.filterMap (fun e => if props.getD e.1 "" = k then some e.2 else none)) := by
  induction es with
  | nil => intro d hd k; rfl
  | cons e es ih =>
    intro d hd k
    rw [List.foldl_cons,
      ih (dictUpdateMax d (props.getD e.1 "") e.2) (keysNodup_updateMax _ _ _ hd) k,
      dictLookup_updateMax d (props.getD e.1 "") e.2 k hd]
    by_cases h : props.getD e.1 "" = k
    · rw [if_pos h.symm, h,
        List.filterMap_cons_some (by rw [if_pos h])]
      rfl
    · rw [if_neg (fun h2 => h h2.symm),
        List.filterMap_cons_none (by rw [if_neg h])]

theorem keysNodup_allMatches (tl : String) (props : List String) :
    keysNodup (allMatches tl props) :=
  keysNodup_fold props _ [] List.nodup_nil

theorem allMatches_lookup (tl : String) (props : List String) (k : String) :
    dictLookup (allMatches tl props) k
      = optPmaxFold none (receivedScores tl props k) := by
  unfold allMatches receivedScores
  rw [dictLookup_fold props (weightedEntries tl props) [] List.nodup_nil k]
  rfl

theorem dictLookup_eq_some_of_mem (d : List (String × Score)) (hd : keysNodup d)
    (k : String) (s : Score) (hm : (k, s) ∈ d) : dictLookup d k = some s := by
  induction d with
  | nil => cases hm
  | cons e rest ih =>
    rw [dictLookup_cons]
    rcases List.mem_cons.mp hm with he | hm2
    · rw [← he]
      rw [if_pos (beq_self_eq_true _)]
    · have hk : k ∈ rest.map Prod.fst := List.mem_map.mpr ⟨(k, s), hm2, rfl⟩
      have hne : e.1 ≠ k := by
        unfold keysNodup at hd
        have h2 := (List.nodup_cons.mp hd).1
        intro h3
        rw [h3] at h2
        exact h2 hk
      rw [if_neg (beq_false_of_ne hne)]
      have hdrest : keysNodup rest := by
        unfold keysNodup at hd ⊢
        exact (List.nodup_cons.mp hd).2
      exact ih hdrest hm2

theorem mem_of_dictLookup_eq_some (d : List (String × Score)) (k : String) (s : Score)
    (h : dictLookup d k = some s) : (k, s) ∈ d := by
  induction d with
  | nil => cases h
  | cons e rest ih =>
    rw [dictLookup_cons] at h
    by_cases h2 : (e.1 == k) = true
    · rw [if_pos h2] at h
      have hs : e.2 = s := Option.some.inj h
      have hk : e.1 = k := eq_of_beq h2
      have he : e = (k, s) := by rw [← hk, ← hs]
      rw [← he]
      exact List.mem_cons_self e rest
    · rw [if_neg h2] at h
      exact List.mem_cons_of_mem e (ih h)

theorem foldl_pmax_den_pos : ∀ (l : List Score) (t : Score), 0 < t.den →
    (∀ s ∈ l, 0 < s.den) → 0 < (l.foldl Score.pmax t).den := by
  intro l
  induction l with
  | nil => intro t ht _; exact ht
  | cons s ss ih =>
    intro t ht hl
    rw [List.foldl_cons]
    exact ih (Score.pmax t s)
      (Score.pmax_den_pos ht (hl s (List.mem_cons_self s ss)))
      (fun x hx => hl x (List.mem_cons_of_mem s hx))

theorem partialRatioS_den_pos (a b : String) : 0 < (partialRatioS a b).den := by
  unfold partialRatioS
  apply foldl_pmax_den_pos
  · exact Nat.one_pos
  · intro s hs
    obtain ⟨w, _, he⟩ := List.mem_map.mp hs
    rw [← he]
    exact fuzzRatioS_den_pos _ _

theorem tokenSortRatioS_den_pos (a b : String) : 0 < (tokenSortRatioS a b).den :=
  fuzzRatioS_den_pos _ _

theorem tokenSetRatioS_den_pos (a b : String) : 0 < (tokenSetRatioS a b).den := by
  unfold tokenSetRatioS
  by_cases h : (!(sortStrs (((pySplit a).eraseDups).filter
      (fun w => ((pySplit b).eraseDups).contains w))).isEmpty
      && ((sortStrs (((pySplit a).eraseDups).filter
        (fun w => !((pySplit b).eraseDups).contains w))).isEmpty
      || (sortStrs (((pySplit b).eraseDups).filter
        (fun w => !((pySplit a).eraseDups).contains w))).isEmpty)) = true
  · rw [if_pos h]
    exact Nat.one_pos
  · rw [if_neg h]
    exact Score.pmax_den_pos
      (Score.pmax_den_pos (fuzzRatioS_den_pos _ _) (fuzzRatioS_den_pos _ _))
      (fuzzRatioS_den_pos _ _)

theorem Score.wmul_den_pos (s : Score) (wn wd : Nat) (hs : 0 < s.den)
    (hw : 0 < wd) : 0 < (s.wmul wn wd).den :=
  Nat.mul_pos hs hw

theorem extractTop_den_pos (scorer : String → String → Score) (q : String)
    (choices : List String) (hsc : ∀ a b, 0 < (scorer a b).den) :
    ∀ e ∈ extractTop scorer q choices, 0 < e.2.den := by
  intro e he
  unfold extractTop at he
  have he2 := List.mem_of_mem_take he
  have he3 := (sortByScoreDesc_perm (fun e : Nat × Score => e.2) _).mem_iff.mp he2
  obtain ⟨x, _, hxe⟩ := List.mem_map.mp he3
  rw [← hxe]
  exact hsc q x.2

theorem weightedEntries_den_pos (tl : String) (props : List String) :
    ∀ e ∈ weightedEntries tl props, 0 < e.2.den := by
  intro e he
  unfold weightedEntries at he
  rcases List.mem_append.mp he with he1 | hc
  · rcases List.mem_append.mp he1 with ha | hb
    · obtain ⟨x, hx, hxe⟩ := List.mem_map.mp ha
      rw [← hxe]
      show 0 < (x.2.wmul 1 1).den
      exact Score.wmul_den_pos x.2 1 1
        (extractTop_den_pos partialRatioS tl _ partialRatioS_den_pos x hx)
        Nat.one_pos
    · obtain ⟨x, hx, hxe⟩ := List.mem_map.mp hb
      rw [← hxe]
      show 0 < (x.2.wmul 6 5).den
      exact Score.wmul_den_pos x.2 6 5
        (extractTop_den_pos tokenSortRatioS tl _ tokenSortRatioS_den_pos x hx)
        (by norm_num)
  · obtain ⟨x, hx, hxe⟩ := List.mem_map.mp hc
    rw [← hxe]
    show 0 < (x.2.wmul 11 10).den
    exact Score.wmul_den_pos x.2 11 10
      (extractTop_den_pos tokenSetRatioS tl _ tokenSetRatioS_den_pos x hx)
      (by norm_num)

theorem receivedScores_den_pos (tl : String) (props : List String) (p : String) :
    ∀ s ∈ receivedScores tl props p, 0 < s.den := by
  intro s hs
  unfold receivedScores at hs
  obtain ⟨e, he, hfe⟩ := List.mem_filterMap.mp hs
  by_cases h : props.getD e.1 "" = p
  · rw [if_pos h] at hfe
    cases hfe
    exact weightedEntries_den_pos tl props e he
  · rw [if_neg h] at hfe
    cases hfe

theorem foldl_optPmax_spec : ∀ (l : List Score) (t : Score), 0 < t.den →
    (∀ s ∈ l, 0 < s.den) →
    ∃ u, l.foldl optPmax (some t) = some u ∧ 0 < u.den ∧
      u.val = (l.map Score.val).foldl max t.val := by
  intro l
  induction l with
  | nil => intro t ht _; exact ⟨t, rfl, ht, rfl⟩
  | cons s ss ih =>
    intro t ht hl
    rw [List.foldl_cons]
    have h1 : optPmax (some t) s = some (Score.pmax t s) := rfl
    rw [h1]
    obtain ⟨u, hu, hud, huv⟩ := ih (Score.pmax t s)
      (Score.pmax_den_pos ht (hl s (List.mem_cons_self s ss)))
      (fun x hx => hl x (List.mem_cons_of_mem s hx))
    refine ⟨u, hu, hud, ?_⟩
    rw [huv, List.map_cons, List.foldl_cons,
      Score.pmax_val ht (hl s (List.mem_cons_self s ss))]

theorem optPmaxFold_cons_spec (s : Score) (ss : List Score) (hs : 0 < s.den)
    (hss : ∀ x ∈ ss, 0 < x.den) :
    ∃ u, optPmaxFold none (s :: ss) = some u ∧ 0 < u.den ∧
      u.val = (ss.map Score.val).foldl max s.val := by
  unfold optPmaxFold
  rw [List.foldl_cons]
  exact foldl_optPmax_spec ss s hs hss

theorem filterMap_if_val (props : List String) (p : String) :
    ∀ (es : List (Nat × Score)),
      es.filterMap (fun e => if props.getD e.1 "" = p then some e.2.val else none)
      = (es.filterMap (fun e =>
          if props.getD e.1 "" = p then some e.2 else none)).map Score.val := by
  intro es
  induction es with
  | nil => rfl
  | cons e es ih =>
    by_cases h : props.getD e.1 "" = p
    · rw [List.filterMap_cons_some (by rw [if_pos h]),
        List.filterMap_cons_some (by rw [if_pos h]), List.map_cons, ih]
    · rw [List.filterMap_cons_none (by rw [if_neg h]),
        List.filterMap_cons_none (by rw [if_neg h]), ih]

theorem receivedWeightedVals_eq (tl : String) (props : List String) (p : String) :
    receivedWeightedVals tl props p = (receivedScores tl props p).map Score.val :=
  filterMap_if_val props p (weightedEntries tl props)

theorem allMatches_lookup_val (tl : String) (props : List String) (p : String) :
    (dictLookup (allMatches tl props) p).map Score.val
      = listMaxOpt (receivedWeightedVals tl props p)
    ∧ ∀ s, dictLookup (allMatches tl props) p = some s → 0 < s.den := by
  rw [allMatches_lookup, receivedWeightedVals_eq]
  cases hr : receivedScores tl props p with
  | nil => exact ⟨rfl, fun s h => by cases h⟩
  | cons s ss =>
    have hden := receivedScores_den_pos tl props p
    rw [hr] at hden
    obtain ⟨u, hu, hud, huv⟩ := optPmaxFold_cons_spec s ss
      (hden s (List.mem_cons_self s ss))
      (fun x hx => hden x (List.mem_cons_of_mem s hx))
    rw [hu]
    constructor
    · show some u.val = listMaxOpt (Score.val s :: ss.map Score.val)
      unfold listMaxOpt
      rw [huv]
    · intro s2 h2
      cases h2
      exact hud

theorem allMatches_den_pos (tl : String) (props : List String) :
    ∀ e ∈ allMatches tl props, 0 < e.2.den := by
  intro e he
  have hl : dictLookup (allMatches tl props) e.1 = some e.2 :=
    dictLookup_eq_some_of_mem _ (keysNodup_allMatches tl props) _ _ he
  exact (allMatches_lookup_val tl props e.1).2 e.2 hl

theorem stage3Keep_generic (sw : List String) (p : String) (s : Score)
    (hsp : sw.filter (fun w => !GENERIC_WORDS.contains w) = []) :
    stage3Keep sw p s
      = (Score.le similarity_threshold s && Score.le (Score.ofNat 95) s) := by
  simp only [stage3Keep, hsp, List.isEmpty_nil, Bool.not_true]
  rw [if_neg Bool.false_ne_true]

theorem stage3Keep_specific (sw : List String) (p : String) (s : Score)
    (hsp : sw.filter (fun w => !GENERIC_WORDS.contains w) ≠ []) :
    stage3Keep sw p s
      = (Score.le similarity_threshold s &&
        ((!((sw.filter (fun w => !GENERIC_WORDS.contains w)).filter
            (fun w => ((propWords p).filter
              (fun w => !GENERIC_WORDS.contains w)).contains w)).isEmpty)
          || (sw.filter (fun w => !GENERIC_WORDS.contains w)).any (fun w =>
              ((propWords p).filter (fun w => !GENERIC_WORDS.contains w)).any
                (fun v => Score.le (Score.ofNat 85) (fuzzRatioS w v))))) := by
  have hb : (sw.filter (fun w => !GENERIC_WORDS.contains w)).isEmpty = false :=
    List.isEmpty_eq_false.mpr hsp
  simp only [stage3Keep, hb, Bool.not_false]
  rw [if_pos trivial]

theorem stage3Keep_iff (sw : List String) (p : String) (s : Score)
    (hden : 0 < s.den) :
    stage3Keep sw p s = true ↔ ((90 : ℚ) ≤ s.val ∧ Stage3KeepSpec sw p s.val) := by
  have h90 : Score.le similarity_threshold s = true ↔ (90 : ℚ) ≤ s.val :=
    Score.ofNat_le_iff 90 s hden
  unfold Stage3KeepSpec
  by_cases hsp : sw.filter (fun w => !GENERIC_WORDS.contains w) = []
  · rw [stage3Keep_generic sw p s hsp, Bool.and_eq_true, h90,
      Score.ofNat_le_iff 95 s hden]
    constructor
    · intro h
      exact ⟨h.1, fun hne => absurd hsp hne, fun _ => h.2⟩
    · intro h
      exact ⟨h.1, h.2.2 hsp⟩
  · rw [stage3Keep_specific sw p s hsp, Bool.and_eq_true, h90, specificM_iff]
    constructor
    · intro h
      exact ⟨h.1, fun _ => h.2, fun he => absurd he hsp⟩
    · intro h
      exact ⟨h.1, h.2.1 hsp⟩

theorem stage3_mem_iff (tl : String) (sw : List String) (props : List String)
    (p : String) :
    p ∈ stage3 tl sw props ↔
      ∃ q, listMaxOpt (receivedWeightedVals tl props p) = some q ∧ (90 : ℚ) ≤ q ∧
        Stage3KeepSpec sw p q := by
  unfold stage3
  constructor
  · intro hp
    obtain ⟨e, he, hep⟩ := List.mem_map.mp hp
    have hef := List.mem_filter.mp he
    have hkeep : stage3Keep sw e.1 e.2 = true := hef.2
    have hmem : e ∈ allMatches tl props :=
      (sortByScoreDesc_perm (fun e : String × Score => e.2) _).mem_iff.mp hef.1
    have hlook : dictLookup (allMatches tl props) e.1 = some e.2 :=
      dictLookup_eq_some_of_mem _ (keysNodup_allMatches tl props) e.1 e.2 hmem
    have hval := (allMatches_lookup_val tl props e.1).1
    rw [hlook] at hval
    have hden := (allMatches_lookup_val tl props e.1).2 e.2 hlook
    have hkeep2 := (stage3Keep_iff sw e.1 e.2 hden).mp hkeep
    subst hep
    exact ⟨e.2.val, hval.symm, hkeep2.1, hkeep2.2⟩
  · rintro ⟨q, hq, h90, hspec⟩
    have hval := (allMatches_lookup_val tl props p).1
    cases hl : dictLookup (allMatches tl props) p with
    | none =>
      rw [hl] at hval
      rw [← hval] at hq
      cases hq
    | some s =>
      rw [hl] at hval
      have hsv : s.val = q := by
        rw [← hval] at hq
        exact Option.some.inj hq
      have hden := (allMatches_lookup_val tl props p).2 s hl
      have hmem : (p, s) ∈ allMatches tl props :=
        mem_of_dictLookup_eq_some _ _ _ hl
      have hsorted : (p, s) ∈ sortByScoreDesc (fun e : String × Score => e.2)
          (allMatches tl props) :=
        (sortByScoreDesc_perm (fun e : String × Score => e.2) _).mem_iff.mpr hmem
      have hkeep : stage3Keep sw p s = true :=
        (stage3Keep_iff sw p s hden).mpr ⟨hsv ▸ h90, hsv ▸ hspec⟩
      exact List.mem_map.mpr ⟨(p, s), List.mem_filter.mpr ⟨hsorted, hkeep⟩, rfl⟩

theorem stage3_sorted (tl : String) (sw : List String) (props : List String) :
    (stage3 tl sw props).Pairwise (fun p1 p2 =>
      (listMaxOpt (receivedWeightedVals tl props p1)).getD 0
      ≥ (listMaxOpt (receivedWeightedVals tl props p2)).getD 0) := by
  unfold stage3
  rw [List.pairwise_map]
  have hsorted := sortByScoreDesc_sorted (fun e : String × Score => e.2)
    (allMatches tl props) (fun y hy => allMatches_den_pos tl props y hy)
  refine List.Pairwise.imp_of_mem ?_ (hsorted.filter _)
  intro a b ha hb hr
  have ha2 : a ∈ allMatches tl props :=
    (sortByScoreDesc_perm (fun e : String × Score => e.2) _).mem_iff.mp
      (List.mem_filter.mp ha).1
  have hb2 : b ∈ allMatches tl props :=
    (sortByScoreDesc_perm (fun e : String × Score => e.2) _).mem_iff.mp
      (List.mem_filter.mp hb).1
  have hla : dictLookup (allMatches tl props) a.1 = some a.2 :=
    dictLookup_eq_some_of_mem _ (keysNodup_allMatches tl props) _ _ ha2
  have hlb : dictLookup (allMatches tl props) b.1 = some b.2 :=
    dictLookup_eq_some_of_mem _ (keysNodup_allMatches tl props) _ _ hb2
  have hva := (allMatches_lookup_val tl props a.1).1
  have hvb := (allMatches_lookup_val tl props b.1).1
  rw [hla] at hva
  rw [hlb] at hvb
  have hda := (allMatches_lookup_val tl props a.1).2 a.2 hla
  have hdb := (allMatches_lookup_val tl props b.1).2 b.2 hlb
  rw [← hva, ← hvb]
  show a.2.val ≥ b.2.val
  exact (Score.le_iff_val hdb hda).mp hr

theorem fuzzy_eq_stage3 (term : String) (props : List String)
    (h1 : props.filter
      (fun p => strContainsSub (pyLower p) (pyStrip (pyLower term))) = [])
    (h2 : props.filter
      (stage2Match ((pySplit (pyStrip (pyLower term))).eraseDups)) = []) :
    fuzzy_search_properties term props
      = stage3 (pyStrip (pyLower term))
          ((pySplit (pyStrip (pyLower term))).eraseDups) props := by
  have he : (!(props.filter
      (fun p => strContainsSub (pyLower p) (pyStrip (pyLower term)))).isEmpty)
      = false := by rw [h1]; rfl
  have hw : (!(props.filter
      (stage2Match ((pySplit (pyStrip (pyLower term))).eraseDups))).isEmpty)
      = false := by rw [h2]; rfl
  simp only [fuzzy_search_properties, he, hw]
  rw [if_neg Bool.false_ne_true, if_neg Bool.false_ne_true]

/-- C8: when Stages 1 and 2 are empty, the result is Stage 3; an identifier
survives exactly when the maximum weighted score it received across the
three per-metric top-20 shortlists (partial ×1.0, token-sort ×1.2,
token-set ×1.1) is at least 90 and it passes the specific-word filter
(an exact or ≥ 85-similar specific-word pair when specific search words
exist, weighted score ≥ 95 otherwise), and survivors come out sorted by
descending best weighted score. -/
theorem scored_stage_characterization (term : String) (props : List String)
    (h1 : props.filter
      (fun p => strContainsSub (pyLower p) (pyStrip (pyLower term))) = [])
    (h2 : props.filter
      (stage2Match ((pySplit (pyStrip (pyLower term))).eraseDups)) = []) :
    fuzzy_search_properties term props
      = stage3 (pyStrip (pyLower term))
          ((pySplit (pyStrip (pyLower term))).eraseDups) props
    ∧ (∀ p, p ∈ stage3 (pyStrip (pyLower term))
          ((pySplit (pyStrip (pyLower term))).eraseDups) props ↔
        ∃ q, listMaxOpt (receivedWeightedVals (pyStrip (pyLower term)) props p)
            = some q
          ∧ (90 : ℚ) ≤ q
          ∧ Stage3KeepSpec ((pySplit (pyStrip (pyLower term))).eraseDups) p q)
    ∧ (stage3 (pyStrip (pyLower term))
          ((pySplit (pyStrip (pyLower term))).eraseDups) props).Pairwise
        (fun p1 p2 =>
          (listMaxOpt (receivedWeightedVals (pyStrip (pyLower term)) props p1)).getD 0
          ≥ (listMaxOpt (receivedWeightedVals (pyStrip (pyLower term)) props p2)).getD 0) :=
  ⟨fuzzy_eq_stage3 term props h1 h2,
   fun p => stage3_mem_iff (pyStrip (pyLower term))
     ((pySplit (pyStrip (pyLower term))).eraseDups) props p,
   stage3_sorted (pyStrip (pyLower term))
     ((pySplit (pyStrip (pyLower term))).eraseDups) props⟩

/-- C8 witness: the misspelling "Aurelai Vila" passes neither the substring
nor the word-set stage and is resolved by the scored fallback. -/
theorem scored_stage_characterization_witness :
    fuzzy_search_properties "Aurelai Vila" ["Aurelia Villa", "Siena House"]
      = stage3 (pyStrip (pyLower "Aurelai Vila"))
          ((pySplit (pyStrip (pyLower "Aurelai Vila"))).eraseDups)
          ["Aurelia Villa", "Siena House"] :=
  (scored_stage_characterization "Aurelai Vila" ["Aurelia Villa", "Siena House"]
    (by decide) (by decide)).1

end PropertySearch
